import Mathlib

/-!
Shallow embedding of `src/xlsx/sheets.go` (package xlsx of UNO-SOFT/grate):
the worksheet decode loop (`parseSheet`), grid placement (`placeValue`),
merged-cell propagation, hyperlink resolution, and the row-cursor API
(`Next`, `Strings`, `Scan`, `IsEmpty`, `Err`).

Conventions of the embedding:
* Go `int` is modelled as `Int` (cell indexes can be the sentinel `-1`).
* A Go runtime panic (out-of-range slice index, failed type assertion,
  nil function call) is modelled by `Option`/a dedicated `panicked`
  constructor: `none` means the operation panics.
* `float64` payloads are modelled by their decimal literal (a `String`);
  no claim under verification depends on floating-point arithmetic.
* Components of the repository that are not part of `src/` (the address
  codec `refToIndexes`, the `commonxl.Value` cell type, the `CellType`
  tags, `getAttrs`, the Go standard-library helpers `strconv.ParseInt`,
  `strconv.ParseFloat` and `strings.Split`, and the document loader that
  stores `parseSheet`'s result into `Sheet.err` and initializes the
  cursor) are modelled from the spec; each such definition says so in its
  doc comment.
-/

namespace GrateXlsx

/-! ## Definitions: the embedded program -/

/-- Modelled from the spec (§3 Cell Value, §3 Merge Sentinel; the concrete
type `commonxl.Value` is outside `src/`): the dynamic (`interface{}`) value
stored in a cell slot — exactly one of boolean, integer, float, text,
timestamp or empty — or one of the four directional merge sentinels
(`endRowMerged`, `continueRowMerged`, `endColumnMerged`,
`continueColumnMerged` in the source). Floats are carried as their decimal
literal, timestamps as an integer code; no claim depends on their
arithmetic. -/
inductive RawVal where
  | rBool (b : Bool)
  | rInt (n : Int)
  | rFloat (lit : String)
  | rString (s : String)
  | rTime (t : Int)
  | rEmpty
  | rEndRowMerged
  | rContinueRowMerged
  | rEndColumnMerged
  | rContinueColumnMerged
deriving DecidableEq, Repr

/-- Modelled from the spec (§3; `commonxl.Value` is outside `src/`): a cell
value together with its display string (`commonxl.NewValue(val, str)` pairs
the two; `Value.Raw()` returns the dynamic value). -/
structure Value where
  raw : RawVal
  str : String
deriving DecidableEq, Repr

/-- The zero `commonxl.Value` of a freshly allocated cell slot. -/
def emptyValue : Value := ⟨.rEmpty, ""⟩

/-- Modelled from the spec: `commonxl.NewValue(val, str)`. -/
def NewValue (val : RawVal) (str : String) : Value := ⟨val, str⟩

/-- Modelled from the spec: `Value.Raw()` returns the dynamic value. -/
def Value.Raw (v : Value) : RawVal := v.raw

/-- Modelled from the spec (§4.8: empty string for empty cells):
`Value.IsEmpty()` of `commonxl`, true on the zero value. -/
def Value.IsEmptyCell (v : Value) : Bool := v.raw = .rEmpty

/-- A Go `error` value other than `io.EOF` (opaque; only its identity
matters to the decode loop). -/
structure GoErr where
  msg : String
deriving DecidableEq, Repr

/-- Modelled from the spec (§6, §4.3; the table lives in the `commonxl`
package, outside `src/`): a resolved number-format function. It receives
the parsed numeric payload (as its decimal literal, see the float
convention above) and returns the display string together with the
possibly reinterpreted value, mirroring
`str, val = numFormat(&s.d.fmt, fval)`. -/
def FmtFunc : Type := String → String × RawVal

/-- The externally-owned per-document state the decode loop reads:
the shared-string table `d.strings` and the style/format table `d.xfs`
(other `Document` fields — zip plumbing, sheet list — do not take part in
`parseSheet` and are omitted). -/
structure Document where
  strings : List String
  xfs : List FmtFunc

/-- Modelled from the spec (§4.7; the `CellType` constants live outside
`src/`): the declared cell-type tag of a `c` element. Tag strings follow
the OOXML vocabulary referenced by the spec: `""`=blank, `"b"`=boolean,
`"d"`=date, `"n"`=number, `"s"`=shared string, `"e"`=error,
`"str"`=formula string, `"inlineStr"`=inline string; any other tag is the
`unknown` arm handled by the decoder's `default` branch. -/
inductive CellType where
  | blank
  | boolean
  | date
  | number
  | sharedString
  | errorCell
  | formulaString
  | inlineString
  | unknown (tag : String)
deriving DecidableEq, Repr

/-- Modelled from the spec: the `CellType(ax[0])` conversion from the `t`
attribute string to a cell-type tag. -/
def CellType.ofTag (t : String) : CellType :=
  if t = "" then .blank
  else if t = "b" then .boolean
  else if t = "d" then .date
  else if t = "n" then .number
  else if t = "s" then .sharedString
  else if t = "e" then .errorCell
  else if t = "str" then .formulaString
  else if t = "inlineStr" then .inlineString
  else .unknown t

/-- One XML token as delivered by `encoding/xml.(*Decoder).RawToken`:
start elements carry their local name and (local attribute name, value)
pairs; `other` stands for the token kinds the loop's `default` branch
ignores (comments, directives, processing instructions). -/
inductive Token where
  | charData (body : String)
  | startElem (name : String) (attrs : List (String × String))
  | endElem (name : String)
  | other
deriving DecidableEq, Repr

/-- Modelled from the spec: the repository helper `getAttrs(attrs, names...)`
returns, for each requested local attribute name in order, its value or
`""` when the attribute is absent. -/
def getAttrs (attrs : List (String × String)) (names : List String) : List String :=
  names.map (fun n => ((attrs.find? (fun p => p.1 = n)).map Prod.snd).getD "")

/-- Modelled from the Go standard library: `strconv.ParseInt(s, 10, 64)`
as used by the decoder, which ignores the returned error and keeps the
value — a well-formed optionally-signed decimal string parses to its
value, anything else (including `""`) leaves the zero value `0`.
(Int64 overflow clamping is not modelled; no claim involves it.) -/
def parseIntGo (s : String) : Int :=
  let digitsVal : List Char → Int :=
    fun l => l.foldl (fun a c => a * 10 + ((c.toNat : Int) - 48)) 0
  let allDigits : List Char → Bool := fun l => l.all (fun c => '0' ≤ c && c ≤ '9')
  match s.data with
  | [] => 0
  | '+' :: rest => if rest ≠ [] ∧ allDigits rest then digitsVal rest else 0
  | '-' :: rest => if rest ≠ [] ∧ allDigits rest then -(digitsVal rest) else 0
  | l => if allDigits l then digitsVal l else 0

/-- Modelled from the Go standard library: success or failure of
`strconv.ParseFloat(s, 64)`; on success the parsed payload is carried as
its literal (see the float convention). The accepted grammar here is an
optionally-signed decimal with an optional fractional part — the
fragment of Go float syntax exercised by spreadsheet numeric cells; no
claim depends on the finer grammar. -/
def parseFloatGo (s : String) : Option String :=
  let isDigit : Char → Bool := fun c => '0' ≤ c && c ≤ '9'
  let body : List Char → Bool := fun l =>
    let intPart := l.takeWhile isDigit
    let rest := l.dropWhile isDigit
    match rest with
    | [] => ¬ intPart.isEmpty
    | '.' :: frac => ¬ intPart.isEmpty ∧ ¬ frac.isEmpty ∧ frac.all isDigit
    | _ => false
  let ok : Bool :=
    match s.data with
    | '+' :: rest => body rest
    | '-' :: rest => body rest
    | l => body l
  if ok then some s else none

/-- Modelled from the spec (§4.1 Address Codec; `refToIndexes` lives
outside `src/`): parse a `"B12"`-style reference — one or more uppercase
letters then one or more digits — into a zero-based (column, row) pair;
column letters are bijective base-26 with `"A"` ↦ 0, the row is the digit
value minus 1. Any malformed input yields the sentinel `(-1, -1)`. -/
def refToIndexes (ref : String) : Int × Int :=
  let isUpper : Char → Bool := fun c => 'A' ≤ c && c ≤ 'Z'
  let isDigit : Char → Bool := fun c => '0' ≤ c && c ≤ '9'
  let cs := ref.data
  let letters := cs.takeWhile isUpper
  let rest := cs.dropWhile isUpper
  let digits := rest.takeWhile isDigit
  let trailing := rest.dropWhile isDigit
  if letters.isEmpty ∨ digits.isEmpty ∨ ¬ trailing.isEmpty then (-1, -1)
  else
    (letters.foldl (fun a c => a * 26 + ((c.toNat : Int) - 64)) 0 - 1,
     digits.foldl (fun a c => a * 10 + ((c.toNat : Int) - 48)) 0 - 1)

/-- Modelled from the Go standard library: `strings.Split(s, ":")` over
the character list — split at every colon; the empty string yields one
empty field, like Go. -/
def splitCharsOnColon : List Char → List (List Char)
  | [] => [[]]
  | c :: rest =>
    let r := splitCharsOnColon rest
    if c = ':' then [] :: r
    else
      match r with
      | [] => [[c]]
      | h :: t => (c :: h) :: t

/-- Modelled from the Go standard library: `strings.Split(s, ":")`. -/
def splitOnColon (s : String) : List String :=
  (splitCharsOnColon s.data).map (fun l => String.mk l)

/-- Go map lookup with the zero value `""` for a missing key, over the
assoc-list model of `linkmap` (latest insertion first, see `parseRels`). -/
def lookupD (m : List (String × String)) (k : String) : String :=
  ((m.find? (fun p => p.1 = k)).map Prod.snd).getD ""

/-- One grid row: the `row` struct of the source, a slice of cell
values. -/
structure Row where
  cols : List Value
deriving DecidableEq, Repr

/-- The `Sheet` struct of the source, restricted to the fields that take
part in decoding and reading (`d`, `relID`, `name`, `docname` are
identification/plumbing). Initial values: Go zero values, except that the
document loader (outside `src/`, modelled from the spec §4.8) starts the
cursor before the first row and the emptiness flag at `true` ("reports
whether the sheet produced zero cell writes"). -/
structure Sheet where
  rows : List Row := []
  minRow : Int := 0
  maxRow : Int := 0
  minCol : Int := 0
  maxCol : Int := 0
  iterRow : Int := -1
  empty : Bool := true
  err : Option GoErr := none
deriving DecidableEq, Repr

/-- The freshly initialized sheet handed to `parseSheet`. -/
def freshSheet : Sheet := {}

/-- One round of the `placeValue` growth loop per unit of fuel: append a
newly allocated row of `maxCol+1` empty cells. The fuel is the exact
iteration count of the Go loop, precomputed by `growRows`; `none` models
the `make` panic on a negative length (unreachable in decoded sheets,
kept for fidelity). -/
def growRowsFuel (maxCol : Int) : Nat → List Row → Option (List Row)
  | 0, rows => some rows
  | n + 1, rows =>
    if maxCol + 1 < 0 then none
    else growRowsFuel maxCol n (rows ++ [⟨List.replicate (maxCol + 1).toNat emptyValue⟩])

/-- The `for len(s.rows) <= rowIndex` growth loop of `placeValue`: append
newly allocated rows until the target row exists. The loop body runs
exactly `(rowIndex + 1 − length).toNat` times — zero times when the row
already exists or `rowIndex` is negative, as in Go. -/
def growRows (maxCol : Int) (rowIndex : Int) (rows : List Row) : Option (List Row) :=
  growRowsFuel maxCol (rowIndex + 1 - rows.length).toNat rows

/-- `Sheet.placeValue` of the source: drop the write when the target is
beyond the declared maximum, otherwise grow the matrix to the target row,
clear the emptiness flag and store `NewValue(val, str)` at the target
column. `none` is the Go panic on a negative index or a column slot
outside the row's allocated width. -/
def Sheet.placeValue (s : Sheet) (rowIndex colIndex : Int) (val : RawVal) (str : String) :
    Option Sheet :=
  if colIndex > s.maxCol ∨ rowIndex > s.maxRow then some s
  else
    match growRows s.maxCol rowIndex s.rows with
    | none => none
    | some grown =>
      if rowIndex < 0 then none
      else
        match grown[rowIndex.toNat]? with
        | none => none
        | some rw =>
          if colIndex < 0 ∨ (rw.cols.length : Int) ≤ colIndex then none
          else some { s with
            rows := grown.set rowIndex.toNat ⟨rw.cols.set colIndex.toNat (NewValue val str)⟩,
            empty := false }

/-- Read a cell with the empty value as default: the contents of slot
`(r, c)` if that row and column exist, `emptyValue` otherwise (fresh slots
are allocated empty, so this is the observable content of the grid). -/
def getCellD (s : Sheet) (r c : Int) : Value :=
  if 0 ≤ r ∧ 0 ≤ c then
    match s.rows[r.toNat]? with
    | some rw => rw.cols[c.toNat]?.getD emptyValue
    | none => emptyValue
  else emptyValue

/-- The inclusive `for x := lo; x <= hi; x++` iteration domain. -/
def intRange (lo hi : Int) : List Int :=
  (List.range (hi + 1 - lo).toNat).map (fun i : Nat => lo + (i : Int))

/-- The sentinel the `mergeCell` loop writes at a non-anchor position
`(r, c)` of the region with anchor column `startCol` and far corner
`(endCol, endRow)`: in the anchor's column, `endRowMerged` on the last
row and `continueRowMerged` above it; otherwise `endColumnMerged` on the
last column and `continueColumnMerged` in the interior. -/
def mergeSentinel (startCol endCol endRow r c : Int) : RawVal :=
  if c = startCol then
    if r = endRow then .rEndRowMerged else .rContinueRowMerged
  else if c = endCol then .rEndColumnMerged
  else .rContinueColumnMerged

/-- The loop body of the `mergeCell` handler at position `(r, c)` of the
region (source lines 165–179): the top-left anchor is left alone ("has
data already!"), a non-anchor cell of the anchor's column gets
`endRowMerged` on the last row and `continueRowMerged` otherwise, a cell
of the last (and not the anchor's) column gets `endColumnMerged`, and any
other cell gets `continueColumnMerged` — each as a sentinel value with an
empty display string. -/
def mergeBody (startCol startRow endCol endRow r c : Int) (s : Sheet) : Option Sheet :=
  if r = startRow ∧ c = startCol then some s
  else if c = startCol then
    if r = endRow then s.placeValue r c .rEndRowMerged ""
    else s.placeValue r c .rContinueRowMerged ""
  else if c = endCol then s.placeValue r c .rEndColumnMerged ""
  else s.placeValue r c .rContinueColumnMerged ""

/-- The inner `for c := startCol; c <= endCol; c++` loop of the
`mergeCell` handler, over an explicit list of column indexes. -/
def mergeLoopCols (startCol startRow endCol endRow r : Int) :
    Sheet → List Int → Option Sheet
  | s, [] => some s
  | s, c :: cs =>
    match mergeBody startCol startRow endCol endRow r c s with
    | none => none
    | some s2 => mergeLoopCols startCol startRow endCol endRow r s2 cs

/-- The outer `for r := startRow; r <= endRow; r++` loop of the
`mergeCell` handler over an explicit list of row indexes. -/
def mergeLoopRows (startCol startRow endCol endRow : Int) :
    Sheet → List Int → Option Sheet
  | s, [] => some s
  | s, r :: rs =>
    match mergeLoopCols startCol startRow endCol endRow r s (intRange startCol endCol) with
    | none => none
    | some s2 => mergeLoopRows startCol startRow endCol endRow s2 rs

/-- The two nested loops of the `mergeCell` handler (lines 163–181 of the
source) for an already-decoded region. -/
def mergeLoop (s : Sheet) (startCol startRow endCol endRow : Int) : Option Sheet :=
  mergeLoopRows startCol startRow endCol endRow s (intRange startRow endRow)

/-- The `mergeCell` start-element handler: split the `ref` range on `":"`,
decode the endpoints (a single endpoint is its own end corner), and run
the propagation loops. -/
def mergeCellApply (s : Sheet) (refAttr : String) : Option Sheet :=
  let dims := splitOnColon refAttr
  let sp := refToIndexes (dims.headD "")
  let ep := if dims.length > 1 then refToIndexes (dims[1]?.getD "") else sp
  mergeLoop s sp.1 sp.2 ep.1 ep.2

/-- The `hyperlink` start-element handler: decode the cell reference, look
the relationship id up in `linkmap` (zero value `""` when absent), and if
the referenced slot currently exists and holds a string value compose
`"<existing> <<target>>"`; finally place the resulting string as both
value and display string. `none` is the Go panic from indexing `s.rows`
or `.cols` with a negative index (a malformed reference reaches exactly
that). -/
def hyperlinkApply (s : Sheet) (linkmap : List (String × String))
    (refAttr idAttr : String) : Option Sheet :=
  let p := refToIndexes refAttr
  let col := p.1
  let row := p.2
  let link := lookupD linkmap idAttr
  if (s.rows.length : Int) > row then
    if row < 0 then none
    else
      let rw := (s.rows[row.toNat]?).getD ⟨[]⟩
      if (rw.cols.length : Int) > col then
        if col < 0 then none
        else
          match (rw.cols[col.toNat]?.getD emptyValue).Raw with
          | .rString sstr =>
            let link2 := sstr ++ " <" ++ link ++ ">"
            s.placeValue row col (.rString link2) link2
          | _ => s.placeValue row col (.rString link) link
      else s.placeValue row col (.rString link) link
  else s.placeValue row col (.rString link) link

/-- The `dimension` start-element handler: `ref="A1"` is the empty-sheet
short circuit (bounds 0..1 in both axes, emptiness flag set); otherwise a
single endpoint sets the maxima with an implicit (0,0) minimum and a two
endpoint range sets all four bounds from the decoded corners. -/
def dimensionApply (s : Sheet) (refAttr : String) : Sheet :=
  if refAttr = "A1" then
    { s with minCol := 0, minRow := 0, maxCol := 1, maxRow := 1, empty := true }
  else
    let dims := splitOnColon refAttr
    if dims.length = 1 then
      let p := refToIndexes (dims.headD "")
      { s with minCol := 0, minRow := 0, maxCol := p.1, maxRow := p.2 }
    else
      let sp := refToIndexes (dims.headD "")
      let ep := refToIndexes (dims[1]?.getD "")
      { s with minCol := sp.1, minRow := sp.2, maxCol := ep.1, maxRow := ep.2 }

/-- The mutable parse state of the decode loop: the sheet under
construction plus `currentCellType`, `currentCell` and `numFormat`
(`none` models the nil Go function before the first `c` element). -/
structure PState where
  sheet : Sheet
  currentCellType : CellType
  currentCell : String
  numFormat : Option FmtFunc

/-- The parse state at loop entry (source lines 66–68). -/
def initPState (s : Sheet) : PState :=
  ⟨s, .blank, "", none⟩

/-- The `xml.CharData` arm of the decode loop: ignore data outside a cell,
drop it on a malformed reference, otherwise materialize the typed value
by `currentCellType` and place it. `none` models the panics reachable
here: `v[0]` on empty boolean data, a nil `numFormat`, an out-of-range
shared-string index, and any panic inside `placeValue`. -/
def charDataStep (d : Document) (st : PState) (body : String) : Option PState :=
  if st.currentCell = "" then some st
  else
    let p := refToIndexes st.currentCell
    let c := p.1
    let r := p.2
    if 0 ≤ c ∧ 0 ≤ r then
      match st.currentCellType with
      | .boolean =>
        match body.data with
        | [] => none
        | ch :: _ =>
          (st.sheet.placeValue r c (.rBool (ch = '1')) body).map
            (fun sh => { st with sheet := sh })
      | .date =>
        (st.sheet.placeValue r c (.rString body) body).map
          (fun sh => { st with sheet := sh })
      | .number =>
        match parseFloatGo body with
        | some lit =>
          match st.numFormat with
          | none => none
          | some nf =>
            let res := nf lit
            (st.sheet.placeValue r c res.2 res.1).map
              (fun sh => { st with sheet := sh })
        | none =>
          (st.sheet.placeValue r c (.rString body) body).map
            (fun sh => { st with sheet := sh })
      | .sharedString =>
        let si := parseIntGo body
        if 0 ≤ si ∧ si < (d.strings.length : Int) then
          let sv := (d.strings[si.toNat]?).getD ""
          (st.sheet.placeValue r c (.rString sv) sv).map
            (fun sh => { st with sheet := sh })
        else none
      | .blank => some st
      | .errorCell =>
        (st.sheet.placeValue r c (.rString body) body).map
          (fun sh => { st with sheet := sh })
      | .formulaString =>
        (st.sheet.placeValue r c (.rString body) body).map
          (fun sh => { st with sheet := sh })
      | .inlineString =>
        (st.sheet.placeValue r c (.rString body) body).map
          (fun sh => { st with sheet := sh })
      | .unknown _ =>
        (st.sheet.placeValue r c (.rString body) body).map
          (fun sh => { st with sheet := sh })
    else some st

/-- The `c` start-element handler: capture the cell type (blank defaults
to number), the reference, and resolve the format function from the style
index (`xfs[sid]` when in range, otherwise `xfs[0]`). `none` models the
panics of `xfs[sid]` on a negative parsed index and of `xfs[0]` on an
empty table. -/
def cellStartApply (d : Document) (st : PState) (attrs : List (String × String)) :
    Option PState :=
  let ax := getAttrs attrs ["t", "r", "s"]
  let ct0 := CellType.ofTag (ax.headD "")
  let ct := if ct0 = .blank then .number else ct0
  let ref := (ax[1]?).getD ""
  let sid := parseIntGo ((ax[2]?).getD "")
  if (d.xfs.length : Int) > sid then
    if sid < 0 then none
    else
      match d.xfs[sid.toNat]? with
      | none => none
      | some f => some { st with currentCellType := ct, currentCell := ref, numFormat := some f }
  else
    match d.xfs[0]? with
    | none => none
    | some f => some { st with currentCellType := ct, currentCell := ref, numFormat := some f }

/-- One iteration of the decode loop over a single token (the big
`switch` of `parseSheet`, source lines 70–215): `none` is a Go panic. -/
def stepTok (d : Document) (linkmap : List (String × String)) (st : PState)
    (tok : Token) : Option PState :=
  match tok with
  | .charData body => charDataStep d st body
  | .startElem name attrs =>
    if name = "dimension" then
      some { st with sheet := dimensionApply st.sheet ((getAttrs attrs ["ref"]).headD "") }
    else if name = "row" then some st
    else if name = "c" then cellStartApply d st attrs
    else if name = "v" then some st
    else if name = "mergeCell" then
      (mergeCellApply st.sheet ((getAttrs attrs ["ref"]).headD "")).map
        (fun sh => { st with sheet := sh })
    else if name = "hyperlink" then
      let ax := getAttrs attrs ["ref", "id"]
      (hyperlinkApply st.sheet linkmap (ax.headD "") ((ax[1]?).getD "")).map
        (fun sh => { st with sheet := sh })
    else some st
  | .endElem name =>
    if name = "c" then some { st with currentCell := "" } else some st
  | .other => some st

/-- Run the decode loop over the successfully delivered tokens; `none` is
a Go panic escaping the loop. -/
def runToks (d : Document) (linkmap : List (String × String)) :
    PState → List Token → Option PState
  | st, [] => some st
  | st, t :: ts =>
    match stepTok d linkmap st t with
    | none => none
    | some st2 => runToks d linkmap st2 ts

/-- How the worksheet token stream terminates after its successfully
delivered tokens: normal end of stream (`io.EOF`) or a mid-stream read
error. -/
inductive StreamEnd where
  | eof
  | fail (e : GoErr)
deriving DecidableEq, Repr

/-- A pull-based token stream as consumed by the loop: the tokens
`RawToken` delivers with a nil error, then the terminating condition. -/
structure PartStream where
  toks : List Token
  fin : StreamEnd
deriving DecidableEq, Repr

/-- The relationship-map construction over the companion `.rels` part's
tokens (source lines 48–56): record `Id ↦ Target` for every
`Relationship` element with `TargetMode="External"` and the hyperlink
relationship type; read errors merely stop the scan. Newest insertion is
consed on the front so `lookupD` sees the latest binding, like a Go
map. -/
def parseRels (toks : List Token) : List (String × String) :=
  toks.foldl
    (fun m t =>
      match t with
      | .startElem "Relationship" attrs =>
        let ax := getAttrs attrs ["Id", "Type", "Target", "TargetMode"]
        if (ax[3]?).getD "" = "External" ∧
            (ax[1]?).getD "" =
              "http://schemas.openxmlformats.org/officeDocument/2006/relationships/hyperlink" then
          (ax.headD "", (ax[2]?).getD "") :: m
        else m
      | _ => m)
    []

/-- The outcome of `parseSheet`: a normal return carrying the final sheet
state and the returned error (`none` after `io.EOF` normalization), or a
Go panic escaping the loop. -/
inductive DecodeOutcome where
  | ret (sheet : Sheet) (err : Option GoErr)
  | panicked
deriving DecidableEq, Repr

/-- `parseSheet` of the source: build `linkmap` from the companion rels
part when it opens (`relsPart = none` models an open failure, which is
non-fatal), then fail fast if the worksheet part does not open, otherwise
drive the token loop and normalize `io.EOF` to a nil error. -/
def parseSheetModel (d : Document) (s0 : Sheet) (relsPart : Option (List Token))
    (sheetPart : Except GoErr PartStream) : DecodeOutcome :=
  let linkmap := parseRels (relsPart.getD [])
  match sheetPart with
  | .error e => .ret s0 (some e)
  | .ok ps =>
    match runToks d linkmap (initPState s0) ps.toks with
    | none => .panicked
    | some st =>
      match ps.fin with
      | .eof => .ret st.sheet none
      | .fail e => .ret st.sheet (some e)

/-- Modelled from the spec (§4.8 `lastError()`; the caller of `parseSheet`
lives outside `src/`): the document loader decodes a fresh sheet and
stores the returned terminal error into the sheet's `err` field, where
`Err()` surfaces it. `none` is a decode panic. -/
def decodeSheet (d : Document) (relsPart : Option (List Token))
    (sheetPart : Except GoErr PartStream) : Option Sheet :=
  match parseSheetModel d freshSheet relsPart sheetPart with
  | .ret sh e => some { sh with err := e }
  | .panicked => none

/-- `Sheet.Next` of the source: advance the cursor and report whether a
row exists at the new position. -/
def Sheet.Next (s : Sheet) : Sheet × Bool :=
  let s2 := { s with iterRow := s.iterRow + 1 }
  (s2, s2.iterRow < (s2.rows.length : Int))

/-- `Sheet.Strings` of the source: index the current row (`none` is the Go
panic when the cursor is not a valid row index) and render one display
string per column, the empty string for empty cells (the `fmt.Sprint`
rendering of a non-empty `commonxl.Value` is its display string, modelled
from the spec §4.8). -/
def Sheet.Strings (s : Sheet) : Option (List String) :=
  if 0 ≤ s.iterRow ∧ s.iterRow < (s.rows.length : Int) then
    let rw := (s.rows[s.iterRow.toNat]?).getD ⟨[]⟩
    some (rw.cols.map (fun col => if col.IsEmptyCell then "" else col.str))
  else none

/-- The destination-argument shape of a `Scan` call: a pointer to one of
the five supported types, the untyped catch-all `*interface{}`, or any
other pointer type (the `default` arm). -/
inductive ScanDest where
  | dBool
  | dInt
  | dFloat
  | dString
  | dTime
  | dAny
  | dOther
deriving DecidableEq, Repr

/-- The outcome of a `Scan` call: normal return of nil, the
`grate.ErrInvalidScanType` error from the `default` arm, or a Go panic
(out-of-range column index or failed type assertion). -/
inductive ScanOutcome where
  | ok
  | errInvalidScanType
  | panicked
deriving DecidableEq, Repr

/-- The `for i, a := range args` loop of `Scan`: fetch `currow.cols[i]`
(panic when the row has fewer columns), then the type switch — each typed
destination performs an unchecked type assertion on the raw value
(panicking on mismatch), `*interface{}` accepts anything, and any other
destination type returns `grate.ErrInvalidScanType`. -/
def scanLoop (cols : List Value) : Nat → List ScanDest → ScanOutcome
  | _, [] => .ok
  | i, a :: rest =>
    match cols[i]? with
    | none => .panicked
    | some cell =>
      match a with
      | .dBool =>
        match cell.Raw with
        | .rBool _ => scanLoop cols (i + 1) rest
        | _ => .panicked
      | .dInt =>
        match cell.Raw with
        | .rInt _ => scanLoop cols (i + 1) rest
        | _ => .panicked
      | .dFloat =>
        match cell.Raw with
        | .rFloat _ => scanLoop cols (i + 1) rest
        | _ => .panicked
      | .dString =>
        match cell.Raw with
        | .rString _ => scanLoop cols (i + 1) rest
        | _ => .panicked
      | .dTime =>
        match cell.Raw with
        | .rTime _ => scanLoop cols (i + 1) rest
        | _ => .panicked
      | .dAny => scanLoop cols (i + 1) rest
      | .dOther => .errInvalidScanType

/-- `Sheet.Scan` of the source: index the current row (`none`-style panic
when the cursor is out of range) and run the argument loop. -/
def Sheet.Scan (s : Sheet) (args : List ScanDest) : ScanOutcome :=
  if 0 ≤ s.iterRow ∧ s.iterRow < (s.rows.length : Int) then
    scanLoop ((s.rows[s.iterRow.toNat]?).getD ⟨[]⟩).cols 0 args
  else .panicked

/-- `Sheet.IsEmpty` of the source. -/
def Sheet.IsEmpty (s : Sheet) : Bool := s.empty

/-- `Sheet.Err` of the source: the last (terminal) error. -/
def Sheet.Err (s : Sheet) : Option GoErr := s.err

/-- Whether a typed or catch-all destination accepts a raw value without
panicking: each typed pointer accepts exactly its own kind, the untyped
catch-all accepts everything, and the `default` arm accepts nothing (it
reports `ErrInvalidScanType` instead). -/
def destAccepts : ScanDest → RawVal → Bool
  | .dBool, .rBool _ => true
  | .dBool, _ => false
  | .dInt, .rInt _ => true
  | .dInt, _ => false
  | .dFloat, .rFloat _ => true
  | .dFloat, _ => false
  | .dString, .rString _ => true
  | .dString, _ => false
  | .dTime, .rTime _ => true
  | .dTime, _ => false
  | .dAny, _ => true
  | .dOther, _ => false

/-- A destination that performs a type assertion (not the catch-all, not
the `default` arm). -/
def destTyped : ScanDest → Bool
  | .dAny => false
  | .dOther => false
  | _ => true

/-- The row-length invariant of the rectangular grid: every materialized
row has exactly `maxCol + 1` column slots. -/
def rectInv (s : Sheet) : Prop :=
  ∀ rw ∈ s.rows, (rw.cols.length : Int) = s.maxCol + 1

instance (s : Sheet) : Decidable (rectInv s) := by
  unfold rectInv; infer_instance

/-- The row allocated by the growth loop of `placeValue`. -/
def newRow (maxCol : Int) : Row := ⟨List.replicate (maxCol + 1).toNat emptyValue⟩

/-- What any grid mutation of the decode loop preserves: the declared
bounds, the cursor, the stored error, monotone row count, the column
width of every already-materialized row, and the row-length invariant. -/
def framePres (s out : Sheet) : Prop :=
  out.maxCol = s.maxCol ∧ out.maxRow = s.maxRow ∧ out.minCol = s.minCol ∧
  out.minRow = s.minRow ∧ out.iterRow = s.iterRow ∧ out.err = s.err ∧
  s.rows.length ≤ out.rows.length ∧
  (∀ i : Nat, i < s.rows.length →
    Option.map (fun rw => rw.cols.length) out.rows[i]? =
      Option.map (fun rw => rw.cols.length) s.rows[i]?) ∧
  (rectInv s → rectInv out)

/-- Recognizer for a `dimension` start element. -/
def isDimStart : Token → Bool
  | .startElem n _ => n = "dimension"
  | _ => false

/-- Tokens whose decode-loop arm never writes to the grid: anything but
character data and the `dimension`, `mergeCell` and `hyperlink` start
elements. -/
def benignTok : Token → Bool
  | .charData _ => false
  | .startElem n _ => decide (n ≠ "dimension" ∧ n ≠ "mergeCell" ∧ n ≠ "hyperlink")
  | .endElem _ => true
  | .other => true

/-- A prefix of destinations that all find a column and accept its value. -/
def acceptedAt (cols : List Value) (i : Nat) (pre : List ScanDest) : Prop :=
  ∀ j, (hj : j < pre.length) → ∃ cell, cols[i + j]? = some cell ∧
    destAccepts (pre.get ⟨j, hj⟩) cell.Raw = true ∧ pre.get ⟨j, hj⟩ ≠ .dOther

/-- A general-format function of the format table: display the number's
literal unchanged and keep it a float (the behavior of format index 0 of
the external table on plain numbers). -/
def fmtGeneral : FmtFunc := fun lit => (lit, .rFloat lit)

/-- A document with a one-entry shared-string table and the default
format. -/
def docOneString : Document := ⟨["hello"], [fmtGeneral]⟩

/-- A worksheet stream whose dimension starts at column B: `B2:C3`, with
one formula-string cell at the anchor `B2`. -/
def toksMinColTwo : List Token :=
  [.startElem "dimension" [("ref", "B2:C3")],
   .startElem "c" [("t", "str"), ("r", "B2")],
   .charData "x",
   .endElem "c"]

/-- The decoded sheet of `toksMinColTwo`: two materialized rows, each with
`maxCol + 1 = 3` column slots although `maxCol − minCol + 1 = 2`. -/
def sheetB2C3 : Sheet :=
  { rows := [⟨[emptyValue, emptyValue, emptyValue]⟩,
             ⟨[emptyValue, NewValue (.rString "x") "x", emptyValue]⟩],
    minRow := 1, maxRow := 2, minCol := 1, maxCol := 2,
    iterRow := -1, empty := false, err := none }

/-- A stream that declares the `"A1"` empty-sheet dimension and then
still carries a numeric cell at `A1`. -/
def toksDimThenCell : List Token :=
  [.startElem "dimension" [("ref", "A1")],
   .startElem "c" [("t", "n"), ("r", "A1"), ("s", "0")],
   .charData "5",
   .endElem "c"]

/-- The sheet state right after the `"A1"` empty-sheet short circuit. -/
def sheetA1Empty : Sheet :=
  { rows := [], minRow := 0, maxRow := 1, minCol := 0, maxCol := 1,
    iterRow := -1, empty := true, err := none }

/-- The decoded sheet of `toksDimThenCell`: the cell written after the
`"A1"` short-circuit cleared the emptiness flag and materialized a row. -/
def sheetA1Cell : Sheet :=
  { rows := [⟨[NewValue (.rFloat "5") "5", emptyValue]⟩],
    minRow := 0, maxRow := 1, minCol := 0, maxCol := 1,
    iterRow := -1, empty := false, err := none }

/-- A one-element worksheet stream declaring dimension `A1:B2`. -/
def toksDimOnly : List Token := [.startElem "dimension" [("ref", "A1:B2")]]

/-- A concrete mid-stream read error. -/
def errW9 : GoErr := ⟨"read failed"⟩

/-- The loop state after `toksDimOnly`. -/
def pstateW9 : PState := ⟨sheetA1Empty, .blank, "", none⟩

/-- A 3×3 sheet with the real value `"x"` at the anchor B2 (row 1,
column 1, zero-based). -/
def sheet3x3 : Sheet :=
  { rows := [⟨[emptyValue, emptyValue, emptyValue]⟩,
             ⟨[emptyValue, NewValue (.rString "x") "x", emptyValue]⟩,
             ⟨[emptyValue, emptyValue, emptyValue]⟩],
    minRow := 0, maxRow := 2, minCol := 0, maxCol := 2,
    iterRow := -1, empty := false, err := none }

/-- The display/value string the hyperlink handler stores: a cell that
currently holds a string value composes `"<existing> <<target>>"`; any
other current value takes the bare target. -/
def hyperLinkText (cellval : Value) (link : String) : String :=
  match cellval.Raw with
  | .rString sstr => sstr ++ " <" ++ link ++ ">"
  | _ => link

/-- A 1×1 sheet whose only cell holds the text `"Example"`. -/
def sheetExample : Sheet :=
  { rows := [⟨[NewValue (.rString "Example") "Example"]⟩],
    minRow := 0, maxRow := 0, minCol := 0, maxCol := 0,
    iterRow := -1, empty := false, err := none }

/-- One external hyperlink relationship: `rId1 ↦ http://x`. -/
def linkmapX : List (String × String) := [("rId1", "http://x")]

/-- A worksheet stream whose only element is a hyperlink with a malformed
cell reference. -/
def toksBadHyperlink : List Token := [.startElem "hyperlink" [("ref", "bad"), ("id", "r1")]]

/-- A parse state inside a cell whose captured reference is malformed. -/
def pstateBadCell : PState := ⟨freshSheet, .number, "###", none⟩

/-- A sheet whose current row holds one string cell, cursor on it. -/
def sheetOneStr : Sheet :=
  { rows := [⟨[NewValue (.rString "x") "x"]⟩], minRow := 0, maxRow := 0, minCol := 0,
    maxCol := 0, iterRow := 0, empty := false, err := none }

/-- A worksheet stream with a shared-string cell whose index 5 is outside
the one-entry shared-string table of `docOneString`. -/
def toksSharedFive : List Token :=
  [.startElem "dimension" [("ref", "A1:C3")],
   .startElem "c" [("t", "s"), ("r", "A1")],
   .charData "5",
   .endElem "c"]

/-- A parse state inside shared-string cell `A1` over fresh 2×2 bounds. -/
def pstateShared : PState := ⟨sheetA1Empty, .sharedString, "A1", none⟩

/-! ## Lemmas and claim theorems -/

theorem growRowsFuel_spec (maxCol : Int) :
    ∀ (n : Nat) (rows out : List Row), growRowsFuel maxCol n rows = some out →
      (∃ k : Nat, out = rows ++ List.replicate k (newRow maxCol)) ∧
      out.length = rows.length + n ∧ (n ≠ 0 → 0 ≤ maxCol + 1) := by
  intro n
  induction n with
  | zero =>
    intro rows out h
    obtain rfl : rows = out := Option.some.inj h
    exact ⟨⟨0, by simp⟩, by simp, by simp⟩
  | succ n ih =>
    intro rows out h
    rw [growRowsFuel] at h
    split at h
    · cases h
    · next hnn =>
      obtain ⟨⟨k, hk⟩, hlen, -⟩ := ih _ out h
      refine ⟨⟨k + 1, ?_⟩, ?_, fun _ => by omega⟩
      · rw [hk, List.append_assoc]
        rfl
      · simp only [List.length_append, List.length_singleton] at hlen
        omega

theorem growRows_spec (maxCol rowIndex : Int) :
    ∀ rows out, growRows maxCol rowIndex rows = some out →
      (∃ k : Nat, out = rows ++ List.replicate k (newRow maxCol)) ∧
      ((rows.length : Int) ≤ rowIndex → (out.length : Int) = rowIndex + 1 ∧ 0 ≤ maxCol + 1) ∧
      (rowIndex < (rows.length : Int) → out = rows) := by
  intro rows out h
  unfold growRows at h
  obtain ⟨hrepl, hlen, hnn⟩ := growRowsFuel_spec maxCol _ rows out h
  refine ⟨hrepl, ?_, ?_⟩
  · intro hle
    exact ⟨by omega, hnn (by omega)⟩
  · intro hlt
    have h0 : (rowIndex + 1 - (rows.length : Int)).toNat = 0 := by omega
    rw [h0] at h
    exact (Option.some.inj h).symm

theorem growRows_isSome (maxCol rowIndex : Int) (hmc : 0 ≤ maxCol + 1) :
    ∀ rows, (growRows maxCol rowIndex rows).isSome := by
  suffices H : ∀ (n : Nat) (rows : List Row), (growRowsFuel maxCol n rows).isSome by
    intro rows
    exact H _ rows
  intro n
  induction n with
  | zero =>
    intro rows
    simp [growRowsFuel]
  | succ n ih =>
    intro rows
    rw [growRowsFuel]
    rw [if_neg (by omega)]
    exact ih _

theorem placeValue_frame (s : Sheet) (ri ci : Int) (v : RawVal) (str : String) (out : Sheet)
    (h : s.placeValue ri ci v str = some out) :
    out.maxCol = s.maxCol ∧ out.maxRow = s.maxRow ∧ out.minCol = s.minCol ∧
    out.minRow = s.minRow ∧ out.iterRow = s.iterRow ∧ out.err = s.err ∧
    s.rows.length ≤ out.rows.length ∧
    (∀ i : Nat, i < s.rows.length →
      Option.map (fun rw => rw.cols.length) out.rows[i]? =
        Option.map (fun rw => rw.cols.length) s.rows[i]?) ∧
    (rectInv s → rectInv out) := by
  unfold Sheet.placeValue at h
  split at h
  · obtain rfl : s = out := Option.some.inj h
    exact ⟨rfl, rfl, rfl, rfl, rfl, rfl, Nat.le_refl _, fun i _ => rfl, id⟩
  · split at h
    · exact absurd h (by simp)
    · next grown hgrow =>
      split at h
      · exact absurd h (by simp)
      · next hri =>
        split at h
        · exact absurd h (by simp)
        · next rw hrw =>
          split at h
          · exact absurd h (by simp)
          · next hci =>
            obtain rfl : _ = out := Option.some.inj h
            obtain ⟨⟨k, hk⟩, hgrew, hstay⟩ := growRows_spec _ _ _ _ hgrow
            have hlen : s.rows.length ≤ grown.length := by
              rw [hk]; simp
            have hmc1 : k ≠ 0 → 0 ≤ s.maxCol + 1 := by
              intro hk0
              by_cases hcase : (s.rows.length : Int) ≤ ri
              · exact (hgrew hcase).2
              · exfalso
                rw [hstay (by omega)] at hk
                have : s.rows.length = s.rows.length + k := by
                  conv_lhs => rw [hk]
                  simp
                omega
            have hgrownlen : ∀ rw2 ∈ grown, rectInv s → (rw2.cols.length : Int) = s.maxCol + 1 := by
              intro rw2 hmem hP
              rw [hk] at hmem
              rcases List.mem_append.1 hmem with hmem3 | hmem3
              · exact hP _ hmem3
              · have heqr := List.eq_of_mem_replicate hmem3
                subst heqr
                have hk0 : k ≠ 0 := by
                  rintro rfl
                  simp at hmem3
                simp only [newRow, List.length_replicate]
                omega
            refine ⟨rfl, rfl, rfl, rfl, rfl, rfl, by simpa using hlen, ?_, ?_⟩
            · intro i hi
              simp only
              rw [List.getElem?_set]
              split
              · next heq =>
                rw [if_pos (by omega)]
                have h1 : grown[i]? = some rw := heq ▸ hrw
                have h2 : grown[i]? = s.rows[i]? := by
                  rw [hk]; exact List.getElem?_append_left hi
                rw [← h2, h1]
                simp
              · next hne =>
                rw [hk, List.getElem?_append_left hi]
            · intro hP rw2 hmem
              simp only at hmem ⊢
              rcases List.mem_or_eq_of_mem_set hmem with hmem2 | rfl
              · exact hgrownlen _ hmem2 hP
              · have hrwlen := hgrownlen rw (List.getElem?_mem hrw) hP
                simpa using hrwlen

theorem placeValue_set (s : Sheet) (ri ci : Int) (v : RawVal) (str : String)
    (hP : rectInv s) (hr0 : 0 ≤ ri) (hrm : ri ≤ s.maxRow) (hc0 : 0 ≤ ci) (hcm : ci ≤ s.maxCol) :
    ∃ out, s.placeValue ri ci v str = some out ∧
      out.maxCol = s.maxCol ∧ out.maxRow = s.maxRow ∧ out.minCol = s.minCol ∧
      out.minRow = s.minRow ∧ out.iterRow = s.iterRow ∧ out.err = s.err ∧
      rectInv out ∧ out.empty = false ∧
      ∀ r c : Int, getCellD out r c =
        if r = ri ∧ c = ci then NewValue v str else getCellD s r c := by
  have hmc : 0 ≤ s.maxCol + 1 := by omega
  obtain ⟨grown, hgrow⟩ := Option.isSome_iff_exists.1 (growRows_isSome s.maxCol ri hmc s.rows)
  obtain ⟨⟨k, hk⟩, hgrew, hstay⟩ := growRows_spec _ _ _ _ hgrow
  have hbound : ri.toNat < grown.length := by
    by_cases hcase : (s.rows.length : Int) ≤ ri
    · have := (hgrew hcase).1
      omega
    · rw [hstay (by omega)]
      omega
  rcases hrw : grown[ri.toNat]? with _ | rw
  · rw [List.getElem?_eq_none_iff] at hrw
    omega
  have hgrownlen : ∀ rw2 ∈ grown, (rw2.cols.length : Int) = s.maxCol + 1 := by
    intro rw2 hmem
    rw [hk] at hmem
    rcases List.mem_append.1 hmem with hmem3 | hmem3
    · exact hP _ hmem3
    · have heqr := List.eq_of_mem_replicate hmem3
      subst heqr
      simp only [newRow, List.length_replicate]
      omega
  have hrwlen : (rw.cols.length : Int) = s.maxCol + 1 := hgrownlen rw (List.getElem?_mem hrw)
  refine ⟨{ s with
      rows := grown.set ri.toNat ⟨rw.cols.set ci.toNat (NewValue v str)⟩,
      empty := false }, ?_, rfl, rfl, rfl, rfl, rfl, rfl, ?_, rfl, ?_⟩
  · unfold Sheet.placeValue
    rw [if_neg (by omega)]
    split
    · next hnone => rw [hgrow] at hnone; cases hnone
    · next grown2 hgrow2 =>
      rw [hgrow] at hgrow2
      obtain rfl : grown = grown2 := Option.some.inj hgrow2
      rw [if_neg (by omega)]
      split
      · next hnone => rw [hrw] at hnone; cases hnone
      · next rw2 hrw2 =>
        rw [hrw] at hrw2
        obtain rfl : rw = rw2 := Option.some.inj hrw2
        rw [if_neg (by omega)]
  · intro rw2 hmem
    simp only at hmem ⊢
    rcases List.mem_or_eq_of_mem_set hmem with hmem2 | rfl
    · exact hgrownlen _ hmem2
    · simpa using hrwlen
  · intro r c
    by_cases hrc : 0 ≤ r ∧ 0 ≤ c
    · by_cases hr : r = ri
      · subst hr
        by_cases hc : c = ci
        · subst hc
          rw [if_pos ⟨rfl, rfl⟩]
          simp only [getCellD, if_pos hrc]
          rw [List.getElem?_set_self hbound]
          simp only
          rw [List.getElem?_set_self (by omega)]
          rfl
        · rw [if_neg (by rintro ⟨-, rfl⟩; exact hc rfl)]
          simp only [getCellD, if_pos hrc]
          rw [List.getElem?_set_self hbound]
          simp only
          rw [List.getElem?_set_ne (by omega)]
          by_cases hlt : r.toNat < s.rows.length
          · have h2 : grown[r.toNat]? = s.rows[r.toNat]? := by
              rw [hk]; exact List.getElem?_append_left hlt
            rw [h2] at hrw
            rw [hrw]
          · have h2 : grown[r.toNat]? = (List.replicate k (newRow s.maxCol))[r.toNat - s.rows.length]? := by
              rw [hk]; exact List.getElem?_append_right (by omega)
            rw [h2, List.getElem?_replicate] at hrw
            have hrepl : rw = newRow s.maxCol := by
              split at hrw
              · exact (Option.some.inj hrw).symm
              · cases hrw
            rw [List.getElem?_eq_none (l := s.rows) (by omega)]
            rw [hrepl]
            simp only [newRow, List.getElem?_replicate]
            split <;> rfl
      · rw [if_neg (by rintro ⟨rfl, -⟩; exact hr rfl)]
        simp only [getCellD, if_pos hrc]
        rw [List.getElem?_set_ne (by omega)]
        by_cases hlt : r.toNat < s.rows.length
        · have h2 : grown[r.toNat]? = s.rows[r.toNat]? := by
            rw [hk]; exact List.getElem?_append_left hlt
          rw [h2]
        · have h2 : grown[r.toNat]? = (List.replicate k (newRow s.maxCol))[r.toNat - s.rows.length]? := by
            rw [hk]; exact List.getElem?_append_right (by omega)
          rw [h2, List.getElem?_eq_none (l := s.rows) (by omega), List.getElem?_replicate]
          split
          · next rw3 heq3 =>
            have hrepl : rw3 = newRow s.maxCol := by
              split at heq3
              · exact (Option.some.inj heq3).symm
              · cases heq3
            subst hrepl
            simp only [newRow, List.getElem?_replicate]
            split <;> rfl
          · rfl
    · rw [if_neg (by rintro ⟨rfl, rfl⟩; exact hrc ⟨hr0, hc0⟩)]
      simp only [getCellD, if_neg hrc]

theorem mem_intRange {lo hi p : Int} : p ∈ intRange lo hi ↔ lo ≤ p ∧ p ≤ hi := by
  constructor
  · intro h
    obtain ⟨i, hi2, hp⟩ := List.mem_map.1 h
    rw [List.mem_range] at hi2
    omega
  · intro ⟨h1, h2⟩
    exact List.mem_map.2 ⟨(p - lo).toNat, List.mem_range.2 (by omega), by omega⟩

theorem mergeLoopCols_spec (startCol startRow endCol endRow r : Int) (hr0 : 0 ≤ r) :
    ∀ (cs : List Int) (s : Sheet), rectInv s → (∀ c ∈ cs, 0 ≤ c ∧ c ≤ s.maxCol) →
      r ≤ s.maxRow →
      ∃ out, mergeLoopCols startCol startRow endCol endRow r s cs = some out ∧
        out.maxCol = s.maxCol ∧ out.maxRow = s.maxRow ∧ out.minCol = s.minCol ∧
        out.minRow = s.minRow ∧ rectInv out ∧
        ∀ r2 c2 : Int, getCellD out r2 c2 =
          if r2 = r ∧ c2 ∈ cs ∧ ¬(r = startRow ∧ c2 = startCol) then
            NewValue (mergeSentinel startCol endCol endRow r c2) ""
          else getCellD s r2 c2 := by
  intro cs
  induction cs with
  | nil =>
    intro s hP _ _
    refine ⟨s, rfl, rfl, rfl, rfl, rfl, hP, ?_⟩
    intro r2 c2
    rw [if_neg (by rintro ⟨-, h, -⟩; cases h)]
  | cons c cs ih =>
    intro s hP hbnd hrm
    by_cases hskip : r = startRow ∧ c = startCol
    · have hbody : mergeBody startCol startRow endCol endRow r c s = some s := by
        unfold mergeBody
        rw [if_pos hskip]
      have hstep : mergeLoopCols startCol startRow endCol endRow r s (c :: cs) =
          mergeLoopCols startCol startRow endCol endRow r s cs := by
        conv_lhs => rw [mergeLoopCols]
        rw [hbody]
      obtain ⟨out, hout, hf1, hf2, hf3, hf4, hPo, hcells⟩ :=
        ih s hP (fun c2 hc2 => hbnd c2 (List.mem_cons_of_mem _ hc2)) hrm
      refine ⟨out, hstep ▸ hout, hf1, hf2, hf3, hf4, hPo, ?_⟩
      intro r2 c2
      rw [hcells r2 c2]
      by_cases hcond : r2 = r ∧ c2 ∈ cs ∧ ¬(r = startRow ∧ c2 = startCol)
      · rw [if_pos hcond, if_pos ⟨hcond.1, List.mem_cons_of_mem _ hcond.2.1, hcond.2.2⟩]
      · rw [if_neg hcond, if_neg ?_]
        rintro ⟨hr2, hmem, hna⟩
        rcases List.mem_cons.1 hmem with rfl | hmem2
        · exact hna ⟨hskip.1, hskip.2⟩
        · exact hcond ⟨hr2, hmem2, hna⟩
    · have hbody : mergeBody startCol startRow endCol endRow r c s =
          s.placeValue r c (mergeSentinel startCol endCol endRow r c) "" := by
        unfold mergeBody mergeSentinel
        rw [if_neg hskip]
        by_cases h1 : c = startCol
        · rw [if_pos h1, if_pos h1]
          by_cases h2 : r = endRow
          · rw [if_pos h2, if_pos h2]
          · rw [if_neg h2, if_neg h2]
        · rw [if_neg h1, if_neg h1]
          by_cases h3 : c = endCol
          · rw [if_pos h3, if_pos h3]
          · rw [if_neg h3, if_neg h3]
      obtain ⟨hc0, hcm⟩ := hbnd c (List.mem_cons_self _ _)
      obtain ⟨mid, hmid, hm1, hm2, hm3, hm4, hm5, hm6, hPm, hme, hmc⟩ :=
        placeValue_set s r c (mergeSentinel startCol endCol endRow r c) "" hP hr0 hrm hc0 hcm
      have hstep : mergeLoopCols startCol startRow endCol endRow r s (c :: cs) =
          mergeLoopCols startCol startRow endCol endRow r mid cs := by
        conv_lhs => rw [mergeLoopCols]
        rw [hbody, hmid]
      obtain ⟨out, hout, hf1, hf2, hf3, hf4, hPo, hcells⟩ :=
        ih mid hPm (fun c2 hc2 => hm1 ▸ hbnd c2 (List.mem_cons_of_mem _ hc2)) (hm2 ▸ hrm)
      refine ⟨out, hstep ▸ hout, hm1 ▸ hf1, hm2 ▸ hf2, hm3 ▸ hf3, hm4 ▸ hf4, hPo, ?_⟩
      intro r2 c2
      rw [hcells r2 c2]
      by_cases hcond : r2 = r ∧ c2 ∈ cs ∧ ¬(r = startRow ∧ c2 = startCol)
      · rw [if_pos hcond, if_pos ⟨hcond.1, List.mem_cons_of_mem _ hcond.2.1, hcond.2.2⟩]
      · rw [if_neg hcond, hmc r2 c2]
        by_cases hcc : r2 = r ∧ c2 = c
        · rw [if_pos hcc, if_pos ⟨hcc.1, hcc.2 ▸ List.mem_cons_self _ _, hcc.2 ▸ hskip⟩, hcc.2]
        · rw [if_neg hcc, if_neg ?_]
          rintro ⟨hr2, hmem, hna⟩
          rcases List.mem_cons.1 hmem with rfl | hmem2
          · exact hcc ⟨hr2, rfl⟩
          · exact hcond ⟨hr2, hmem2, hna⟩

theorem mergeLoopRows_spec (startCol startRow endCol endRow : Int)
    (hc0 : 0 ≤ startCol) :
    ∀ (rs : List Int) (s : Sheet), rectInv s → (∀ r ∈ rs, 0 ≤ r ∧ r ≤ s.maxRow) →
      endCol ≤ s.maxCol →
      ∃ out, mergeLoopRows startCol startRow endCol endRow s rs = some out ∧
        out.maxCol = s.maxCol ∧ out.maxRow = s.maxRow ∧ out.minCol = s.minCol ∧
        out.minRow = s.minRow ∧ rectInv out ∧
        ∀ r2 c2 : Int, getCellD out r2 c2 =
          if r2 ∈ rs ∧ (startCol ≤ c2 ∧ c2 ≤ endCol) ∧ ¬(r2 = startRow ∧ c2 = startCol) then
            NewValue (mergeSentinel startCol endCol endRow r2 c2) ""
          else getCellD s r2 c2 := by
  intro rs
  induction rs with
  | nil =>
    intro s hP _ _
    refine ⟨s, rfl, rfl, rfl, rfl, rfl, hP, ?_⟩
    intro r2 c2
    rw [if_neg (by rintro ⟨h, -, -⟩; cases h)]
  | cons r rs ih =>
    intro s hP hbnd hcm
    obtain ⟨hr0, hrm⟩ := hbnd r (List.mem_cons_self _ _)
    obtain ⟨mid, hmid, hm1, hm2, hm3, hm4, hPm, hcolcells⟩ :=
      mergeLoopCols_spec startCol startRow endCol endRow r hr0 (intRange startCol endCol) s hP
        (fun c2 hc2 => by
          obtain ⟨h1, h2⟩ := mem_intRange.1 hc2
          exact ⟨by omega, by omega⟩) hrm
    have hstep : mergeLoopRows startCol startRow endCol endRow s (r :: rs) =
        mergeLoopRows startCol startRow endCol endRow mid rs := by
      conv_lhs => rw [mergeLoopRows]
      rw [hmid]
    obtain ⟨out, hout, hf1, hf2, hf3, hf4, hPo, hcells⟩ :=
      ih mid hPm (fun r2 hr2 => by
          obtain ⟨h1, h2⟩ := hbnd r2 (List.mem_cons_of_mem _ hr2)
          exact ⟨h1, by omega⟩) (by omega)
    refine ⟨out, hstep ▸ hout, hm1 ▸ hf1, hm2 ▸ hf2, hm3 ▸ hf3, hm4 ▸ hf4, hPo, ?_⟩
    intro r2 c2
    rw [hcells r2 c2]
    by_cases hcond : r2 ∈ rs ∧ (startCol ≤ c2 ∧ c2 ≤ endCol) ∧ ¬(r2 = startRow ∧ c2 = startCol)
    · rw [if_pos hcond, if_pos ⟨List.mem_cons_of_mem _ hcond.1, hcond.2.1, hcond.2.2⟩]
    · rw [if_neg hcond, hcolcells r2 c2]
      by_cases hcol : r2 = r ∧ c2 ∈ intRange startCol endCol ∧ ¬(r = startRow ∧ c2 = startCol)
      · obtain ⟨hbc1, hbc2⟩ := mem_intRange.1 hcol.2.1
        rw [if_pos hcol,
          if_pos ⟨hcol.1 ▸ List.mem_cons_self _ _, ⟨hbc1, hbc2⟩, hcol.1 ▸ hcol.2.2⟩, hcol.1]
      · rw [if_neg hcol, if_neg ?_]
        rintro ⟨hmem, hbc, hna⟩
        rcases List.mem_cons.1 hmem with rfl | hmem2
        · exact hcol ⟨rfl, mem_intRange.2 hbc, hna⟩
        · exact hcond ⟨hmem2, hbc, hna⟩

theorem framePres_refl (s : Sheet) : framePres s s :=
  ⟨rfl, rfl, rfl, rfl, rfl, rfl, Nat.le_refl _, fun _ _ => rfl, id⟩

theorem framePres_trans {s mid out : Sheet} (h1 : framePres s mid) (h2 : framePres mid out) :
    framePres s out := by
  obtain ⟨a1, a2, a3, a4, a5, a6, a7, a8, a9⟩ := h1
  obtain ⟨b1, b2, b3, b4, b5, b6, b7, b8, b9⟩ := h2
  exact ⟨b1.trans a1, b2.trans a2, b3.trans a3, b4.trans a4, b5.trans a5, b6.trans a6,
    a7.trans b7, fun i hi => (b8 i (Nat.lt_of_lt_of_le hi a7)).trans (a8 i hi),
    fun hP => b9 (a9 hP)⟩

theorem placeValue_framePres {s out : Sheet} {ri ci : Int} {v : RawVal} {str : String}
    (h : s.placeValue ri ci v str = some out) : framePres s out := by
  obtain ⟨a1, a2, a3, a4, a5, a6, a7, a8, a9⟩ := placeValue_frame s ri ci v str out h
  exact ⟨a1, a2, a3, a4, a5, a6, a7, a8, a9⟩

theorem mergeBody_framePres {sc sr ec er r c : Int} {s out : Sheet}
    (h : mergeBody sc sr ec er r c s = some out) : framePres s out := by
  unfold mergeBody at h
  split at h
  · exact (Option.some.inj h) ▸ framePres_refl s
  · split at h
    · split at h
      · exact placeValue_framePres h
      · exact placeValue_framePres h
    · split at h
      · exact placeValue_framePres h
      · exact placeValue_framePres h

theorem mergeLoopCols_framePres {sc sr ec er r : Int} :
    ∀ {cs : List Int} {s out : Sheet},
      mergeLoopCols sc sr ec er r s cs = some out → framePres s out := by
  intro cs
  induction cs with
  | nil =>
    intro s out h
    exact (Option.some.inj h) ▸ framePres_refl s
  | cons c cs ih =>
    intro s out h
    rw [mergeLoopCols] at h
    split at h
    · cases h
    · next s2 hs2 => exact framePres_trans (mergeBody_framePres hs2) (ih h)

theorem mergeLoopRows_framePres {sc sr ec er : Int} :
    ∀ {rs : List Int} {s out : Sheet},
      mergeLoopRows sc sr ec er s rs = some out → framePres s out := by
  intro rs
  induction rs with
  | nil =>
    intro s out h
    exact (Option.some.inj h) ▸ framePres_refl s
  | cons r rs ih =>
    intro s out h
    rw [mergeLoopRows] at h
    split at h
    · cases h
    · next s2 hs2 => exact framePres_trans (mergeLoopCols_framePres hs2) (ih h)

theorem mergeCellApply_framePres {s out : Sheet} {refAttr : String}
    (h : mergeCellApply s refAttr = some out) : framePres s out := by
  unfold mergeCellApply mergeLoop at h
  exact mergeLoopRows_framePres h

theorem hyperlinkApply_framePres {s out : Sheet} {lm : List (String × String)}
    {refAttr idAttr : String} (h : hyperlinkApply s lm refAttr idAttr = some out) :
    framePres s out := by
  unfold hyperlinkApply at h
  simp only [] at h
  split at h
  · split at h
    · cases h
    · split at h
      · split at h
        · cases h
        · split at h
          · exact placeValue_framePres h
          · exact placeValue_framePres h
      · exact placeValue_framePres h
  · exact placeValue_framePres h

theorem charDataStep_framePres {d : Document} {st st2 : PState} {body : String}
    (h : charDataStep d st body = some st2) : framePres st.sheet st2.sheet := by
  unfold charDataStep at h
  split at h
  · exact (Option.some.inj h) ▸ framePres_refl _
  · simp only [] at h
    split at h
    · split at h
      · split at h
        · cases h
        · rcases Option.map_eq_some'.1 h with ⟨sh, hsh, rfl⟩
          exact placeValue_framePres hsh
      · rcases Option.map_eq_some'.1 h with ⟨sh, hsh, rfl⟩
        exact placeValue_framePres hsh
      · split at h
        · split at h
          · cases h
          · rcases Option.map_eq_some'.1 h with ⟨sh, hsh, rfl⟩
            exact placeValue_framePres hsh
        · rcases Option.map_eq_some'.1 h with ⟨sh, hsh, rfl⟩
          exact placeValue_framePres hsh
      · split at h
        · rcases Option.map_eq_some'.1 h with ⟨sh, hsh, rfl⟩
          exact placeValue_framePres hsh
        · cases h
      · exact (Option.some.inj h) ▸ framePres_refl _
      · rcases Option.map_eq_some'.1 h with ⟨sh, hsh, rfl⟩
        exact placeValue_framePres hsh
      · rcases Option.map_eq_some'.1 h with ⟨sh, hsh, rfl⟩
        exact placeValue_framePres hsh
      · rcases Option.map_eq_some'.1 h with ⟨sh, hsh, rfl⟩
        exact placeValue_framePres hsh
      · rcases Option.map_eq_some'.1 h with ⟨sh, hsh, rfl⟩
        exact placeValue_framePres hsh
    · exact (Option.some.inj h) ▸ framePres_refl _

theorem cellStartApply_sheet {d : Document} {st st2 : PState} {attrs : List (String × String)}
    (h : cellStartApply d st attrs = some st2) : st2.sheet = st.sheet := by
  unfold cellStartApply at h
  simp only [] at h
  split at h
  · split at h
    · cases h
    · split at h
      · cases h
      · obtain rfl : _ = st2 := Option.some.inj h
        rfl
  · split at h
    · cases h
    · obtain rfl : _ = st2 := Option.some.inj h
      rfl

theorem stepTok_framePres {d : Document} {lm : List (String × String)} {st st2 : PState}
    {tok : Token} (h : stepTok d lm st tok = some st2) (hnd : isDimStart tok = false) :
    framePres st.sheet st2.sheet := by
  unfold stepTok at h
  match tok with
  | .charData body => exact charDataStep_framePres h
  | .startElem name attrs =>
    simp only at h
    split at h
    · next hname => simp [isDimStart, hname] at hnd
    · split at h
      · exact (Option.some.inj h) ▸ framePres_refl _
      · split at h
        · exact (cellStartApply_sheet h) ▸ framePres_refl _
        · split at h
          · exact (Option.some.inj h) ▸ framePres_refl _
          · split at h
            · rcases Option.map_eq_some'.1 h with ⟨sh, hsh, rfl⟩
              exact mergeCellApply_framePres hsh
            · split at h
              · rcases Option.map_eq_some'.1 h with ⟨sh, hsh, rfl⟩
                exact hyperlinkApply_framePres hsh
              · exact (Option.some.inj h) ▸ framePres_refl _
  | .endElem name =>
    simp only at h
    split at h
    · exact (Option.some.inj h) ▸ framePres_refl _
    · exact (Option.some.inj h) ▸ framePres_refl _
  | .other => exact (Option.some.inj h) ▸ framePres_refl _

theorem runToks_framePres {d : Document} {lm : List (String × String)} :
    ∀ {toks : List Token} {st st2 : PState},
      runToks d lm st toks = some st2 → (∀ t ∈ toks, isDimStart t = false) →
      framePres st.sheet st2.sheet := by
  intro toks
  induction toks with
  | nil =>
    intro st st2 h _
    exact (Option.some.inj h) ▸ framePres_refl _
  | cons t ts ih =>
    intro st st2 h hnd
    rw [runToks] at h
    split at h
    · cases h
    · next stm hstm =>
      exact framePres_trans
        (stepTok_framePres hstm (hnd t (List.mem_cons_self _ _)))
        (ih h (fun t2 ht2 => hnd t2 (List.mem_cons_of_mem _ ht2)))

theorem stepTok_benign {d : Document} {lm : List (String × String)} {st st2 : PState}
    {tok : Token} (h : stepTok d lm st tok = some st2) (hb : benignTok tok = true) :
    st2.sheet = st.sheet := by
  unfold stepTok at h
  match tok with
  | .charData body => simp [benignTok] at hb
  | .startElem name attrs =>
    have hbn : name ≠ "dimension" ∧ name ≠ "mergeCell" ∧ name ≠ "hyperlink" :=
      of_decide_eq_true hb
    simp only at h
    rw [if_neg hbn.1] at h
    split at h
    · obtain rfl : _ = st2 := Option.some.inj h
      rfl
    · split at h
      · exact cellStartApply_sheet h
      · split at h
        · obtain rfl : _ = st2 := Option.some.inj h
          rfl
        · rw [if_neg hbn.2.1] at h
          rw [if_neg hbn.2.2] at h
          obtain rfl : _ = st2 := Option.some.inj h
          rfl
  | .endElem name =>
    simp only at h
    split at h
    · obtain rfl : _ = st2 := Option.some.inj h
      rfl
    · obtain rfl : _ = st2 := Option.some.inj h
      rfl
  | .other =>
    obtain rfl : _ = st2 := Option.some.inj h
    rfl

theorem runToks_benign {d : Document} {lm : List (String × String)} :
    ∀ {toks : List Token} {st st2 : PState},
      runToks d lm st toks = some st2 → (∀ t ∈ toks, benignTok t = true) →
      st2.sheet = st.sheet := by
  intro toks
  induction toks with
  | nil =>
    intro st st2 h _
    obtain rfl : st = st2 := Option.some.inj h
    rfl
  | cons t ts ih =>
    intro st st2 h hb
    rw [runToks] at h
    split at h
    · cases h
    · next stm hstm =>
      exact (ih h (fun t2 ht2 => hb t2 (List.mem_cons_of_mem _ ht2))).trans
        (stepTok_benign hstm (hb t (List.mem_cons_self _ _)))

theorem stepTok_dimension (d : Document) (lm : List (String × String)) (st : PState)
    (attrs : List (String × String)) :
    stepTok d lm st (.startElem "dimension" attrs) =
      some { st with sheet := dimensionApply st.sheet ((getAttrs attrs ["ref"]).headD "") } := by
  rfl

theorem scanLoop_accept {cols : List Value} {i : Nat} {a : ScanDest} {rest : List ScanDest}
    {cell : Value} (hcell : cols[i]? = some cell) (hacc : destAccepts a cell.Raw = true)
    (hno : a ≠ .dOther) :
    scanLoop cols i (a :: rest) = scanLoop cols (i + 1) rest := by
  conv_lhs => rw [scanLoop]
  rw [hcell]
  cases a <;> cases hcr : cell.Raw <;> simp_all [destAccepts]

theorem scanLoop_mismatch {cols : List Value} {i : Nat} {a : ScanDest} {rest : List ScanDest}
    {cell : Value} (hcell : cols[i]? = some cell) (htyped : destTyped a = true)
    (hacc : destAccepts a cell.Raw = false) :
    scanLoop cols i (a :: rest) = .panicked := by
  conv_lhs => rw [scanLoop]
  rw [hcell]
  cases a <;> cases hcr : cell.Raw <;> simp_all [destAccepts, destTyped]

theorem scanLoop_invalid {cols : List Value} {i : Nat} {rest : List ScanDest} {cell : Value}
    (hcell : cols[i]? = some cell) :
    scanLoop cols i (.dOther :: rest) = .errInvalidScanType := by
  conv_lhs => rw [scanLoop]
  rw [hcell]

theorem scanLoop_skip_matched {cols : List Value} :
    ∀ (pre : List ScanDest) (i : Nat) (args : List ScanDest), acceptedAt cols i pre →
      scanLoop cols i (pre ++ args) = scanLoop cols (i + pre.length) args := by
  intro pre
  induction pre with
  | nil =>
    intro i args _
    rfl
  | cons a pre ih =>
    intro i args hacc
    obtain ⟨cell, hcell, hac, hno⟩ := hacc 0 (by simp)
    rw [List.cons_append, scanLoop_accept (by simpa using hcell) (by simpa using hac)
      (by simpa using hno)]
    rw [ih (i + 1) args ?_]
    · congr 1
      simp only [List.length_cons]
      omega
    · intro j hj
      obtain ⟨cell2, hcell2, hac2, hno2⟩ := hacc (j + 1) (by simpa using Nat.succ_lt_succ hj)
      refine ⟨cell2, ?_, by simpa using hac2, by simpa using hno2⟩
      rw [show i + 1 + j = i + (j + 1) from by omega]
      exact hcell2

theorem scanLoop_overrun {cols : List Value} :
    ∀ (n i : Nat), i ≤ cols.length → cols.length < i + n →
      scanLoop cols i (List.replicate n .dAny) = .panicked := by
  intro n
  induction n with
  | zero =>
    intro i h1 h2
    omega
  | succ n ih =>
    intro i h1 h2
    rw [List.replicate_succ]
    by_cases hi : i < cols.length
    · have hcell : cols[i]? = some cols[i] := List.getElem?_eq_getElem hi
      rw [scanLoop_accept hcell (by cases hcr : cols[i].Raw <;> simp [destAccepts]) (by simp)]
      exact ih (i + 1) (by omega) (by omega)
    · have hnone : cols[i]? = none := List.getElem?_eq_none (by omega)
      conv_lhs => rw [scanLoop]
      rw [hnone]

/-- C3: out-of-bounds placement is a no-op — a `placeValue` call whose
`rowIndex` exceeds `maxRow` or whose `colIndex` exceeds `maxCol` returns
(no panic) and leaves the sheet state — row count, every row's contents,
the emptiness flag — completely unchanged. -/
theorem placeValue_out_of_bounds_noop (s : Sheet) (ri ci : Int) (v : RawVal) (str : String)
    (h : ri > s.maxRow ∨ ci > s.maxCol) :
    s.placeValue ri ci v str = some s := by
  unfold Sheet.placeValue
  rw [if_pos (by tauto)]

theorem placeValue_out_of_bounds_noop_witness :
    ((3 : Int) > freshSheet.maxRow ∨ (0 : Int) > freshSheet.maxCol) ∧
      freshSheet.placeValue 3 0 (.rString "zz") "zz" = some freshSheet :=
  ⟨Or.inl (by decide),
   placeValue_out_of_bounds_noop freshSheet 3 0 (.rString "zz") "zz" (Or.inl (by decide))⟩

/-- Rows of the `dimension` handler result: the handler only rewrites the
declared bounds (and, for `"A1"`, the emptiness flag); the grid itself is
untouched. -/
theorem dimensionApply_rows (s : Sheet) (refAttr : String) :
    (dimensionApply s refAttr).rows = s.rows := by
  unfold dimensionApply
  split
  · rfl
  · simp only []
    split
    · rfl
    · rfl

/-- C1 counterexample: decoding a sheet whose dimension is `B2:C3`
(`minCol = 1`) materializes rows of width `maxCol + 1 = 3`, not
`maxCol − minCol + 1 = 2` — the claimed row length is wrong whenever
`minCol ≠ 0`. -/
theorem parseSheet_row_width_cex :
    parseSheetModel docOneString freshSheet none (.ok ⟨toksMinColTwo, .eof⟩) =
      .ret sheetB2C3 none ∧
    ¬ (((sheetB2C3.rows.headD ⟨[]⟩).cols.length : Int) =
        sheetB2C3.maxCol - sheetB2C3.minCol + 1) := by
  exact ⟨by rfl, by decide⟩

/-- C1 (amended): after a decode whose stream declares its dimension once
up front (the only layout the format produces), every materialized row
has exactly `maxCol + 1` column slots — `maxCol + 1`, not
`maxCol − minCol + 1`; and rows never shrink: `placeValue` never lowers
the row count and never changes the width of an existing row. -/
theorem parseSheet_row_width :
    (∀ (d : Document) (relsPart : Option (List Token)) (attrs : List (String × String))
        (rest : List Token) (fin : StreamEnd) (sh : Sheet) (e : Option GoErr),
      (∀ t ∈ rest, isDimStart t = false) →
      parseSheetModel d freshSheet relsPart
          (.ok ⟨.startElem "dimension" attrs :: rest, fin⟩) = .ret sh e →
      ∀ rw ∈ sh.rows, (rw.cols.length : Int) = sh.maxCol + 1) ∧
    (∀ (s : Sheet) (ri ci : Int) (v : RawVal) (str : String) (out : Sheet),
      s.placeValue ri ci v str = some out →
      s.rows.length ≤ out.rows.length ∧
      ∀ i : Nat, i < s.rows.length →
        Option.map (fun rw => rw.cols.length) out.rows[i]? =
          Option.map (fun rw => rw.cols.length) s.rows[i]?) := by
  constructor
  · intro d relsPart attrs rest fin sh e hnd h
    unfold parseSheetModel at h
    simp only [] at h
    rw [runToks, stepTok_dimension] at h
    simp only [] at h
    split at h
    · cases h
    · next st2 hrun =>
      have hframe := runToks_framePres hrun hnd
      have hP1 : rectInv (dimensionApply freshSheet ((getAttrs attrs ["ref"]).headD "")) := by
        intro rw2 hmem
        rw [dimensionApply_rows freshSheet _] at hmem
        simp [freshSheet] at hmem
      have hP2 : rectInv st2.sheet := hframe.2.2.2.2.2.2.2.2 hP1
      have hsh : sh = st2.sheet := by
        split at h
        · exact (DecodeOutcome.ret.inj h).1.symm
        · exact (DecodeOutcome.ret.inj h).1.symm
      exact hsh ▸ hP2
  · intro s ri ci v str out h
    obtain ⟨-, -, -, -, -, -, h7, h8, -⟩ := placeValue_frame s ri ci v str out h
    exact ⟨h7, h8⟩

theorem parseSheet_row_width_witness :
    (∀ t ∈ toksMinColTwo.drop 1, isDimStart t = false) ∧
    (∀ rw ∈ sheetB2C3.rows, (rw.cols.length : Int) = sheetB2C3.maxCol + 1) :=
  ⟨by decide,
   parseSheet_row_width.1 docOneString none [("ref", "B2:C3")] (toksMinColTwo.drop 1)
     .eof sheetB2C3 none (by decide) (by rfl)⟩

/-- C4 counterexample: after a `dimension` element with `ref="A1"`, a
subsequent in-bounds cell element is still processed — the decode of
`toksDimThenCell` ends with `IsEmpty() = false` and one materialized row,
refuting "IsEmpty() returns true and the grid has zero rows regardless of
any other elements present afterward". -/
theorem dimension_A1_cex :
    parseSheetModel docOneString freshSheet none (.ok ⟨toksDimThenCell, .eof⟩) =
      .ret sheetA1Cell none ∧
    sheetA1Cell.IsEmpty = false ∧ sheetA1Cell.rows ≠ [] := by
  exact ⟨by rfl, by decide, by decide⟩

/-- C4 (amended): a `dimension` element whose `ref` is exactly `"A1"`
rewrites the bounds to `minCol = minRow = 0`, `maxCol = maxRow = 1` and
marks the sheet empty; the loop then continues, so the final sheet has
`IsEmpty() = true` and zero rows only provided no later token writes to
the grid (here: every later token is benign — not character data and not
a `dimension`/`mergeCell`/`hyperlink` start element); a later in-bounds
cell write clears the flag (see the counterexample). -/
theorem dimension_A1_shortcircuit :
    (∀ s : Sheet, dimensionApply s "A1" =
      { s with minCol := 0, minRow := 0, maxCol := 1, maxRow := 1, empty := true }) ∧
    (∀ (d : Document) (relsPart : Option (List Token)) (attrs : List (String × String))
        (rest : List Token) (fin : StreamEnd) (sh : Sheet) (e : Option GoErr),
      (getAttrs attrs ["ref"]).headD "" = "A1" →
      (∀ t ∈ rest, benignTok t = true) →
      parseSheetModel d freshSheet relsPart
          (.ok ⟨.startElem "dimension" attrs :: rest, fin⟩) = .ret sh e →
      sh.IsEmpty = true ∧ sh.rows = []) := by
  constructor
  · intro s
    unfold dimensionApply
    rw [if_pos rfl]
  · intro d relsPart attrs rest fin sh e href hb h
    unfold parseSheetModel at h
    simp only [] at h
    rw [runToks, stepTok_dimension, href] at h
    simp only [] at h
    split at h
    · cases h
    · next st2 hrun =>
      have hsheet : st2.sheet = dimensionApply freshSheet "A1" := runToks_benign hrun hb
      have hsh : sh = st2.sheet := by
        split at h
        · exact (DecodeOutcome.ret.inj h).1.symm
        · exact (DecodeOutcome.ret.inj h).1.symm
      rw [hsh, hsheet]
      exact ⟨rfl, rfl⟩

theorem dimension_A1_shortcircuit_witness :
    dimensionApply freshSheet "A1" = sheetA1Empty ∧
    sheetA1Empty.IsEmpty = true ∧ sheetA1Empty.rows = [] :=
  ⟨(dimension_A1_shortcircuit.1 freshSheet).trans (by decide),
   dimension_A1_shortcircuit.2 docOneString none [("ref", "A1")]
     [.startElem "c" [("t", ""), ("r", "A1")], .endElem "c"] .eof sheetA1Empty
     none (by decide) (by decide) (by rfl)⟩

/-- C9: stream-failure and termination semantics — for any run of the
token loop that completes without a panic, `parseSheet` returns nil (no
error) exactly on normal end of stream: the `eof` ending produces
`.ret _ none` (EOF is normalized away) while the same tokens ending in a
read error produce `.ret _ (some e)` with the identical grid, so all rows
placed before the failure are retained; a failure to open the worksheet
part is returned as the terminal error with an empty grid; and the
loader stores the terminal error where `Err()` surfaces it, over the same
retained rows. -/
theorem parseSheet_stream_semantics (d : Document) (relsPart : Option (List Token))
    (toks : List Token) (st : PState) (e : GoErr)
    (hrun : runToks d (parseRels (relsPart.getD [])) (initPState freshSheet) toks = some st) :
    parseSheetModel d freshSheet relsPart (.ok ⟨toks, .eof⟩) = .ret st.sheet none ∧
    parseSheetModel d freshSheet relsPart (.ok ⟨toks, .fail e⟩) = .ret st.sheet (some e) ∧
    parseSheetModel d freshSheet relsPart (.error e) = .ret freshSheet (some e) ∧
    decodeSheet d relsPart (.ok ⟨toks, .eof⟩) = some { st.sheet with err := none } ∧
    decodeSheet d relsPart (.ok ⟨toks, .fail e⟩) = some { st.sheet with err := some e } ∧
    ({ st.sheet with err := some e } : Sheet).Err = some e ∧
    ({ st.sheet with err := some e } : Sheet).rows = st.sheet.rows := by
  have h1 : parseSheetModel d freshSheet relsPart (.ok ⟨toks, .eof⟩) = .ret st.sheet none := by
    unfold parseSheetModel
    simp only []
    rw [hrun]
  have h2 : parseSheetModel d freshSheet relsPart (.ok ⟨toks, .fail e⟩) =
      .ret st.sheet (some e) := by
    unfold parseSheetModel
    simp only []
    rw [hrun]
  refine ⟨h1, h2, by unfold parseSheetModel; rfl, ?_, ?_, rfl, rfl⟩
  · unfold decodeSheet
    rw [h1]
  · unfold decodeSheet
    rw [h2]

theorem parseSheet_stream_semantics_witness :
    parseSheetModel docOneString freshSheet none (.ok ⟨toksDimOnly, .eof⟩) =
      .ret sheetA1Empty none ∧
    parseSheetModel docOneString freshSheet none (.ok ⟨toksDimOnly, .fail errW9⟩) =
      .ret sheetA1Empty (some errW9) ∧
    parseSheetModel docOneString freshSheet none (.error errW9) =
      .ret freshSheet (some errW9) ∧
    decodeSheet docOneString none (.ok ⟨toksDimOnly, .eof⟩) =
      some { sheetA1Empty with err := none } ∧
    decodeSheet docOneString none (.ok ⟨toksDimOnly, .fail errW9⟩) =
      some { sheetA1Empty with err := some errW9 } ∧
    ({ sheetA1Empty with err := some errW9 } : Sheet).Err = some errW9 ∧
    ({ sheetA1Empty with err := some errW9 } : Sheet).rows = sheetA1Empty.rows :=
  parseSheet_stream_semantics docOneString none toksDimOnly pstateW9 errW9 (by rfl)

/-- A `mergeCell` range that is a single cell writes nothing: the loops
visit only the anchor, which is skipped. -/
theorem mergeLoop_singleton (s : Sheet) (sc sr : Int) : mergeLoop s sc sr sc sr = some s := by
  have hr1 : intRange sr sr = [sr] := by
    unfold intRange
    rw [show (sr + 1 - sr).toNat = 1 from by omega,
      show List.range 1 = [0] from rfl]
    simp
  have hc1 : intRange sc sc = [sc] := by
    unfold intRange
    rw [show (sc + 1 - sc).toNat = 1 from by omega,
      show List.range 1 = [0] from rfl]
    simp
  have hb : mergeBody sc sr sc sr sr sc s = some s := by
    unfold mergeBody
    rw [if_pos ⟨rfl, rfl⟩]
  unfold mergeLoop
  rw [hr1, mergeLoopRows, hc1, mergeLoopCols, hb]
  rfl

/-- C2: merge propagation — for a decoded `mergeCell` range with anchor
`(sc, sr)` and far corner `(ec, er)` lying inside the declared bounds,
every non-anchor cell of the range receives exactly the sentinel of
`mergeSentinel`: in the anchor's column, `endRowMerged` on the last row
and `continueRowMerged` (continues-down) above it; elsewhere
`endColumnMerged` on the last column and `continueColumnMerged` in the
interior — so the bottom-right corner `(er, ec)` carries the end marker
closing the region. The anchor cell itself is never overwritten, no cell
outside the range changes, and a degenerate single-cell range writes
nothing at all. -/
theorem mergeCell_propagation (s : Sheet) (sc sr ec er : Int)
    (hP : rectInv s) (hsc : 0 ≤ sc) (hsr : 0 ≤ sr) (hec : ec ≤ s.maxCol) (her : er ≤ s.maxRow)
    (hsce : sc ≤ ec) (hsre : sr ≤ er) :
    ∃ out, mergeLoop s sc sr ec er = some out ∧
      (∀ r c : Int, sr ≤ r → r ≤ er → sc ≤ c → c ≤ ec → ¬(r = sr ∧ c = sc) →
        getCellD out r c = NewValue (mergeSentinel sc ec er r c) "") ∧
      getCellD out sr sc = getCellD s sr sc ∧
      (∀ r c : Int, r < sr ∨ er < r ∨ c < sc ∨ ec < c → getCellD out r c = getCellD s r c) ∧
      (sc = ec → sr = er → out = s) := by
  obtain ⟨out, hout, hf1, hf2, hf3, hf4, hPo, hcells⟩ :=
    mergeLoopRows_spec sc sr ec er hsc (intRange sr er) s hP
      (fun r2 hr2 => by
        obtain ⟨ha, hb⟩ := mem_intRange.1 hr2
        exact ⟨by omega, by omega⟩) hec
  refine ⟨out, hout, ?_, ?_, ?_, ?_⟩
  · intro r c h1 h2 h3 h4 hna
    rw [hcells r c, if_pos ⟨mem_intRange.2 ⟨h1, h2⟩, ⟨h3, h4⟩, hna⟩]
  · rw [hcells sr sc, if_neg (by rintro ⟨-, -, hna⟩; exact hna ⟨rfl, rfl⟩)]
  · intro r c houtside
    rw [hcells r c, if_neg ?_]
    rintro ⟨hmem, ⟨hb1, hb2⟩, -⟩
    obtain ⟨hm1, hm2⟩ := mem_intRange.1 hmem
    omega
  · intro hd1 hd2
    subst hd1
    subst hd2
    have hs := mergeLoop_singleton s sc sr
    unfold mergeLoop at hs
    exact (Option.some.inj (hs.symm.trans hout)).symm

theorem mergeCell_propagation_witness :
    (mergeLoop sheet3x3 1 1 2 2).map
        (fun out => (getCellD out 1 1, getCellD out 1 2, getCellD out 2 1, getCellD out 2 2,
          getCellD out 0 0)) =
      some (NewValue (.rString "x") "x", NewValue .rEndColumnMerged "",
        NewValue .rEndRowMerged "", NewValue .rEndColumnMerged "", emptyValue) := by
  obtain ⟨out, hout, hcells, hanchor, houtside, -⟩ :=
    mergeCell_propagation sheet3x3 1 1 2 2 (by decide) (by decide) (by decide) (by decide)
      (by decide) (by decide) (by decide)
  rw [hout]
  simp only [Option.map_some']
  rw [hcells 1 2 (by decide) (by decide) (by decide) (by decide) (by decide),
    hcells 2 1 (by decide) (by decide) (by decide) (by decide) (by decide),
    hcells 2 2 (by decide) (by decide) (by decide) (by decide) (by decide),
    hanchor, houtside 0 0 (by decide)]
  decide

theorem hyperLinkText_string {cv : Value} {t link : String} (h : cv.Raw = .rString t) :
    hyperLinkText cv link = t ++ " <" ++ link ++ ">" := by
  unfold hyperLinkText
  rw [h]

theorem hyperLinkText_other {cv : Value} {link : String} (h : ∀ t, cv.Raw ≠ .rString t) :
    hyperLinkText cv link = link := by
  unfold hyperLinkText
  cases hcr : cv.Raw <;> try rfl
  exact absurd hcr (h _)

theorem hyperlink_branch (cellval : Value) (s : Sheet) (row col : Int) (link : String) :
    (match cellval.Raw with
      | RawVal.rString sstr =>
        s.placeValue row col (.rString (sstr ++ " <" ++ link ++ ">"))
          (sstr ++ " <" ++ link ++ ">")
      | _ => s.placeValue row col (.rString link) link) =
    s.placeValue row col (.rString (hyperLinkText cellval link))
      (hyperLinkText cellval link) := by
  unfold hyperLinkText
  cases hcr : cellval.Raw <;> rfl

/-- C5: hyperlink composition — for a well-formed in-bounds reference,
the handler resolves the target from the relationship map (`lookupD`,
which yields `""` for an absent id, without failing), stores
`hyperLinkText` of the referenced cell's current value as both the value
and the display string of that cell — `"<existing> <<target>>"` when the
cell currently holds a string, the bare target otherwise — and changes no
other cell. -/
theorem hyperlink_composition (s : Sheet) (lm : List (String × String))
    (refAttr idAttr : String) (col row : Int)
    (hP : rectInv s) (href : refToIndexes refAttr = (col, row))
    (hc0 : 0 ≤ col) (hcm : col ≤ s.maxCol) (hr0 : 0 ≤ row) (hrm : row ≤ s.maxRow) :
    ∃ out, hyperlinkApply s lm refAttr idAttr = some out ∧
      getCellD out row col =
        NewValue (.rString (hyperLinkText (getCellD s row col) (lookupD lm idAttr)))
          (hyperLinkText (getCellD s row col) (lookupD lm idAttr)) ∧
      (∀ t : String, (getCellD s row col).Raw = .rString t →
        hyperLinkText (getCellD s row col) (lookupD lm idAttr) =
          t ++ " <" ++ lookupD lm idAttr ++ ">") ∧
      ((∀ t : String, (getCellD s row col).Raw ≠ .rString t) →
        hyperLinkText (getCellD s row col) (lookupD lm idAttr) = lookupD lm idAttr) ∧
      (∀ r c : Int, ¬(r = row ∧ c = col) → getCellD out r c = getCellD s r c) := by
  have hgen1 : ∀ t : String, (getCellD s row col).Raw = .rString t →
      hyperLinkText (getCellD s row col) (lookupD lm idAttr) =
        t ++ " <" ++ lookupD lm idAttr ++ ">" :=
    fun t ht => hyperLinkText_string ht
  have hgen2 : (∀ t : String, (getCellD s row col).Raw ≠ .rString t) →
      hyperLinkText (getCellD s row col) (lookupD lm idAttr) = lookupD lm idAttr :=
    fun h => hyperLinkText_other h
  unfold hyperlinkApply
  simp only [] at *
  rw [href]
  dsimp only
  by_cases hlen : (s.rows.length : Int) > row
  · rw [if_pos hlen, if_neg (by omega)]
    have hbound : row.toNat < s.rows.length := by omega
    have hrw0 : s.rows[row.toNat]? = some s.rows[row.toNat] := List.getElem?_eq_getElem hbound
    rw [hrw0]
    dsimp only [Option.getD]
    have hrww : ((s.rows[row.toNat]).cols.length : Int) = s.maxCol + 1 :=
      hP _ (List.getElem?_mem hrw0)
    rw [if_pos (by omega), if_neg (by omega)]
    have hcell : getCellD s row col = (s.rows[row.toNat]).cols[col.toNat]?.getD emptyValue := by
      unfold getCellD
      rw [if_pos ⟨hr0, hc0⟩, hrw0]
    rw [hyperlink_branch]
    obtain ⟨out, hpv, hb1, hb2, hb3, hb4, hb5, hb6, hbP, hbe, hbc⟩ :=
      placeValue_set s row col
        (.rString (hyperLinkText ((s.rows[row.toNat]).cols[col.toNat]?.getD emptyValue)
          (lookupD lm idAttr)))
        (hyperLinkText ((s.rows[row.toNat]).cols[col.toNat]?.getD emptyValue)
          (lookupD lm idAttr)) hP hr0 hrm hc0 hcm
    refine ⟨out, hpv, ?_, hgen1, hgen2, ?_⟩
    · rw [hbc row col, if_pos ⟨rfl, rfl⟩, hcell]
    · intro r c hne
      rw [hbc r c, if_neg hne]
  · rw [if_neg hlen]
    have hnone : s.rows[row.toNat]? = none := List.getElem?_eq_none (by omega)
    have hcell : getCellD s row col = emptyValue := by
      unfold getCellD
      rw [if_pos ⟨hr0, hc0⟩, hnone]
    have htext : hyperLinkText (getCellD s row col) (lookupD lm idAttr) = lookupD lm idAttr := by
      rw [hcell]
      rfl
    obtain ⟨out, hpv, hb1, hb2, hb3, hb4, hb5, hb6, hbP, hbe, hbc⟩ :=
      placeValue_set s row col (.rString (lookupD lm idAttr)) (lookupD lm idAttr)
        hP hr0 hrm hc0 hcm
    refine ⟨out, hpv, ?_, hgen1, hgen2, ?_⟩
    · rw [hbc row col, if_pos ⟨rfl, rfl⟩, htext]
    · intro r c hne
      rw [hbc r c, if_neg hne]

theorem hyperlink_composition_witness :
    (hyperlinkApply sheetExample linkmapX "A1" "rId1").map (fun out => getCellD out 0 0) =
      some (NewValue (.rString "Example <http://x>") "Example <http://x>") ∧
    (hyperlinkApply freshSheet linkmapX "A1" "rId1").map (fun out => getCellD out 0 0) =
      some (NewValue (.rString "http://x") "http://x") := by
  constructor
  · obtain ⟨out, hout, hcell, -, -, -⟩ :=
      hyperlink_composition sheetExample linkmapX "A1" "rId1" 0 0 (by decide) (by decide)
        (by decide) (by decide) (by decide) (by decide)
    rw [hout]
    simp only [Option.map_some']
    rw [hcell]
    decide
  · obtain ⟨out, hout, hcell, -, -, -⟩ :=
      hyperlink_composition freshSheet linkmapX "A1" "rId1" 0 0 (by decide) (by decide)
        (by decide) (by decide) (by decide) (by decide)
    rw [hout]
    simp only [Option.map_some']
    rw [hcell]
    decide

/-- C6 counterexample: a malformed hyperlink reference is not silently
discarded — decoding a stream holding only `<hyperlink ref="bad">`
aborts with a panic (`s.rows[-1]` in the source), instead of dropping
the datum and leaving the grid unchanged. -/
theorem malformed_ref_cex :
    parseSheetModel docOneString freshSheet none (.ok ⟨toksBadHyperlink, .eof⟩) =
      .panicked := by
  rfl

/-- C6 (amended): a malformed cell reference is silently discarded only
for character data inside a cell (the only guarded site); a `mergeCell`
whose second endpoint is malformed writes nothing (its loops are empty);
but a hyperlink whose reference is malformed always indexes `s.rows`
with `-1` and panics. -/
theorem malformed_ref_handling :
    (∀ (d : Document) (st : PState) (body : String),
      st.currentCell ≠ "" →
      ((refToIndexes st.currentCell).1 < 0 ∨ (refToIndexes st.currentCell).2 < 0) →
      charDataStep d st body = some st) ∧
    (∀ (s : Sheet) (lm : List (String × String)) (refAttr idAttr : String),
      refToIndexes refAttr = (-1, -1) →
      hyperlinkApply s lm refAttr idAttr = none) ∧
    (∀ (s : Sheet) (sc sr : Int), 0 ≤ sr →
      mergeLoop s sc sr (-1) (-1) = some s) := by
  refine ⟨?_, ?_, ?_⟩
  · intro d st body hcc hneg
    unfold charDataStep
    rw [if_neg hcc]
    simp only []
    rw [if_neg (by rintro ⟨h1, h2⟩; rcases hneg with h | h <;> omega)]
  · intro s lm refAttr idAttr href
    unfold hyperlinkApply
    simp only []
    rw [href]
    dsimp only
    rw [if_pos (by omega), if_pos (by omega)]
  · intro s sc sr h0
    have hempty : intRange sr (-1) = [] := by
      unfold intRange
      rw [show ((-1 : Int) + 1 - sr).toNat = 0 from by omega]
      rfl
    unfold mergeLoop
    rw [hempty]
    rfl

theorem malformed_ref_handling_witness :
    charDataStep docOneString pstateBadCell "7" = some pstateBadCell ∧
    hyperlinkApply freshSheet [] "###" "rid" = none ∧
    mergeLoop freshSheet 1 1 (-1) (-1) = some freshSheet :=
  ⟨malformed_ref_handling.1 docOneString pstateBadCell "7" (by decide) (by decide),
   malformed_ref_handling.2.1 freshSheet [] "###" "rid" (by decide),
   malformed_ref_handling.2.2 freshSheet 1 1 (by decide)⟩

/-- C7 counterexample: scanning a string cell into a `*bool` destination
does not surface an error to the caller — the unchecked type assertion
panics (neither `ErrInvalidScanType` nor a normal return). -/
theorem scan_mismatch_cex :
    sheetOneStr.Scan [.dBool] = .panicked ∧
    sheetOneStr.Scan [.dBool] ≠ .errInvalidScanType ∧
    sheetOneStr.Scan [.dBool] ≠ .ok := by
  decide

/-- C7 (amended): in a `Scan` call whose earlier arguments all match,
a typed destination whose type differs from the cell's actual value
panics (failed unchecked type assertion) — the mismatch is never silently
coerced, but neither is it returned as an error — while an unsupported
destination type returns `grate.ErrInvalidScanType`. -/
theorem scan_type_errors (s : Sheet) (cols : List Value) (pre : List ScanDest) (a : ScanDest)
    (rest : List ScanDest) (cell : Value)
    (hr0 : 0 ≤ s.iterRow) (hrow : s.rows[s.iterRow.toNat]? = some ⟨cols⟩)
    (hpre : acceptedAt cols 0 pre) (hcell : cols[pre.length]? = some cell) :
    (destTyped a = true → destAccepts a cell.Raw = false →
      s.Scan (pre ++ a :: rest) = .panicked) ∧
    (a = .dOther → s.Scan (pre ++ a :: rest) = .errInvalidScanType) := by
  have hlt : s.iterRow < (s.rows.length : Int) := by
    obtain ⟨hb, -⟩ := List.getElem?_eq_some.1 hrow
    omega
  have hscan : s.Scan (pre ++ a :: rest) = scanLoop cols pre.length (a :: rest) := by
    unfold Sheet.Scan
    rw [if_pos ⟨hr0, hlt⟩, hrow]
    dsimp only [Option.getD]
    rw [scanLoop_skip_matched pre 0 (a :: rest) hpre, Nat.zero_add]
  constructor
  · intro ht hacc
    rw [hscan]
    exact scanLoop_mismatch hcell ht hacc
  · rintro rfl
    rw [hscan]
    exact scanLoop_invalid hcell

theorem scan_type_errors_witness :
    sheetOneStr.Scan [ScanDest.dBool] = .panicked ∧
    sheetOneStr.Scan [ScanDest.dOther] = .errInvalidScanType := by
  constructor
  · exact (scan_type_errors sheetOneStr [NewValue (.rString "x") "x"] [] .dBool []
      (NewValue (.rString "x") "x") (by decide) (by rfl)
      (fun j hj => absurd hj (by simp)) (by rfl)).1 (by decide) (by decide)
  · exact (scan_type_errors sheetOneStr [NewValue (.rString "x") "x"] [] .dOther []
      (NewValue (.rString "x") "x") (by decide) (by rfl)
      (fun j hj => absurd hj (by simp)) (by rfl)).2 rfl

/-- C8 counterexample: an out-of-range shared-string index is not
surfaced as a reported defect — the decode aborts with a panic
(out-of-range `s.d.strings[si]`), producing neither a sheet nor a
terminal error for `Err()`. -/
theorem shared_string_oob_cex :
    parseSheetModel docOneString freshSheet none (.ok ⟨toksSharedFive, .eof⟩) = .panicked := by
  rfl

/-- C8 (amended): for a shared-string cell with a well-formed in-bounds
reference, the raw text parses as an integer index (`parseIntGo`, which
silently yields 0 on non-numeric text); an in-range index resolves
through the table and the resolved string is placed as both the value and
the display string, while an out-of-range (including negative) index
panics instead of being reported or substituted. -/
theorem shared_string_lookup (d : Document) (st : PState) (body : String) (c r : Int)
    (hcc : st.currentCell ≠ "") (href : refToIndexes st.currentCell = (c, r))
    (hc : 0 ≤ c) (hr : 0 ≤ r) (ht : st.currentCellType = .sharedString) :
    ((0 ≤ parseIntGo body ∧ parseIntGo body < (d.strings.length : Int)) →
      charDataStep d st body =
        (st.sheet.placeValue r c
            (.rString ((d.strings[(parseIntGo body).toNat]?).getD ""))
            ((d.strings[(parseIntGo body).toNat]?).getD "")).map
          (fun sh => { st with sheet := sh })) ∧
    (¬(0 ≤ parseIntGo body ∧ parseIntGo body < (d.strings.length : Int)) →
      charDataStep d st body = none) := by
  constructor
  · intro hin
    unfold charDataStep
    rw [if_neg hcc]
    simp only []
    rw [href]
    dsimp only
    rw [if_pos ⟨hc, hr⟩, ht]
    dsimp only
    rw [if_pos hin]
  · intro hout
    unfold charDataStep
    rw [if_neg hcc]
    simp only []
    rw [href]
    dsimp only
    rw [if_pos ⟨hc, hr⟩, ht]
    dsimp only
    rw [if_neg hout]

theorem shared_string_lookup_witness :
    charDataStep docOneString pstateShared "0" =
      (sheetA1Empty.placeValue 0 0 (.rString "hello") "hello").map
        (fun sh => { pstateShared with sheet := sh }) :=
  (shared_string_lookup docOneString pstateShared "0" 0 0 (by decide) (by decide)
    (by decide) (by decide) (by decide)).1 (by decide)

/-- C10: implicit cursor-bounds precondition — `Strings()` and `Scan()`
index the row list at the cursor without a bounds check: with the cursor
outside `[0, rows)` (zero rows included) both panic; right after a
`Next()` that returned `false` both panic; with a valid cursor
`Strings()` returns normally; and `Scan` panics on the column access as
soon as it receives more destinations than the current row has columns
(shown with universally accepting `*interface{}` destinations). -/
theorem cursor_bounds :
    (∀ (s : Sheet) (args : List ScanDest),
      ¬(0 ≤ s.iterRow ∧ s.iterRow < (s.rows.length : Int)) →
      s.Strings = none ∧ s.Scan args = .panicked) ∧
    (∀ (s s2 : Sheet) (args : List ScanDest),
      s.Next = (s2, false) → s2.Strings = none ∧ s2.Scan args = .panicked) ∧
    (∀ s : Sheet, 0 ≤ s.iterRow → s.iterRow < (s.rows.length : Int) →
      ∃ l, s.Strings = some l) ∧
    (∀ (s : Sheet) (cols : List Value) (n : Nat),
      0 ≤ s.iterRow → s.rows[s.iterRow.toNat]? = some ⟨cols⟩ → cols.length < n →
      s.Scan (List.replicate n .dAny) = .panicked) := by
  refine ⟨?_, ?_, ?_, ?_⟩
  · intro s args h
    unfold Sheet.Strings Sheet.Scan
    rw [if_neg h, if_neg h]
    exact ⟨rfl, rfl⟩
  · intro s s2 args h
    unfold Sheet.Next at h
    simp only [] at h
    have h1 := congrArg Prod.fst h
    have h2 := congrArg Prod.snd h
    simp only [] at h1 h2
    have hn : ¬(s2.iterRow < (s2.rows.length : Int)) := by
      subst h1
      exact of_decide_eq_false h2
    have hcond : ¬(0 ≤ s2.iterRow ∧ s2.iterRow < (s2.rows.length : Int)) :=
      fun hh => hn hh.2
    unfold Sheet.Strings Sheet.Scan
    rw [if_neg hcond, if_neg hcond]
    exact ⟨rfl, rfl⟩
  · intro s h1 h2
    unfold Sheet.Strings
    rw [if_pos ⟨h1, h2⟩]
    exact ⟨_, rfl⟩
  · intro s cols n h0 hrow hlen
    have hlt : s.iterRow < (s.rows.length : Int) := by
      obtain ⟨hb, -⟩ := List.getElem?_eq_some.1 hrow
      omega
    unfold Sheet.Scan
    rw [if_pos ⟨h0, hlt⟩, hrow]
    dsimp only [Option.getD]
    exact scanLoop_overrun n 0 (Nat.zero_le _) (by omega)

theorem cursor_bounds_witness :
    (freshSheet.Strings = none ∧ freshSheet.Scan [] = .panicked) ∧
    ({ freshSheet with iterRow := 0 } : Sheet).Strings = none ∧
    sheetOneStr.Strings.isSome = true ∧
    sheetOneStr.Scan (List.replicate 2 .dAny) = .panicked := by
  refine ⟨cursor_bounds.1 freshSheet [] (by decide), ?_, ?_, ?_⟩
  · exact (cursor_bounds.2.1 freshSheet { freshSheet with iterRow := 0 } [] (by decide)).1
  · obtain ⟨l, hl⟩ := cursor_bounds.2.2.1 sheetOneStr (by decide) (by decide)
    rw [hl]
    rfl
  · exact cursor_bounds.2.2.2 sheetOneStr [NewValue (.rString "x") "x"] 2 (by decide)
      (by rfl) (by decide)

end GrateXlsx
